import Mathlib

/-!
Shallow embedding of `movmux.py` (track selection and mux-command synthesis).

Modelling conventions:
* A mediainfo track dictionary becomes a structure of `Option String` fields,
  one per dictionary key the program reads (`@type`, `StreamOrder`, `Language`,
  `Channels`, `Compression_Mode`, `BitRate`, `Default`, `Forced`).  A missing
  key is `none`; reading a missing key is Python's `KeyError`.
* Fallible Python code becomes `Except Err`, with one error constructor per
  Python exception class the program can raise or catch.
* Python `int(s)` is modelled by `pyInt?` (trim whitespace, then parse an
  optionally signed decimal numeral); the inputs relevant here are plain
  decimal numerals, where the two agree exactly.
* Python list indexing (`tracks[id]`, negative indices wrap from the end)
  is modelled by `pyIndex`.
* Track dictionaries are shared by reference in Python; the embedding is
  functional (each admission stores the track value with its flag fields
  overwritten).  No claim below observes the difference.
-/

namespace Movmux

/-- Python exception kinds the program raises or catches. -/
inductive Err where
  | keyError
  | valueError
  | typeError
  | trackNotFound
  | runtimeError
  deriving DecidableEq, Repr

/-- One mediainfo track dictionary, restricted to the keys `movmux.py` reads.
`default` models the `"Default"` key and `forced` the `"Forced"` key. -/
structure Track where
  typ : Option String := none
  streamOrder : Option String := none
  language : Option String := none
  channels : Option String := none
  compressionMode : Option String := none
  bitRate : Option String := none
  default : Option String := none
  forced : Option String := none
  deriving DecidableEq, Repr

/-- `MediaFile`: the probed input file.  `tracks` is
`self.mediainfo["media"]["track"]`. -/
structure MediaFile where
  file : String
  tracks : List Track
  deriving DecidableEq, Repr

instance instDecEqExcept {ε α : Type} [DecidableEq ε] [DecidableEq α] : DecidableEq (Except ε α)
  | .ok a, .ok b =>
    if h : a = b then .isTrue (by rw [h]) else .isFalse (fun hc => by cases hc; exact h rfl)
  | .ok _, .error _ => .isFalse (fun hc => by cases hc)
  | .error _, .ok _ => .isFalse (fun hc => by cases hc)
  | .error e, .error f =>
    if h : e = f then .isTrue (by rw [h]) else .isFalse (fun hc => by cases hc; exact h rfl)

/-- Dictionary lookup `d[k]`: `KeyError` when the key is absent. -/
def getKey : Option String → Except Err String
  | some v => .ok v
  | none => .error .keyError

/-- Whitespace characters Python's `int()` and `str.strip()` ignore. -/
def isPySpace (c : Char) : Bool :=
  c.toNat = 32 || c.toNat = 9 || c.toNat = 10 || c.toNat = 13 || c.toNat = 11 || c.toNat = 12

/-- Strip leading and trailing whitespace. -/
def pyTrim (cs : List Char) : List Char :=
  ((cs.dropWhile isPySpace).reverse.dropWhile isPySpace).reverse

/-- Accumulate a decimal numeral; `none` at the first non-digit. -/
def digitsGo : List Char → Nat → Option Nat
  | [], acc => some acc
  | c :: rest, acc =>
    if 48 ≤ c.toNat ∧ c.toNat ≤ 57 then digitsGo rest (acc * 10 + (c.toNat - 48)) else none

/-- A non-empty all-digit numeral's value. -/
def digitsOf (cs : List Char) : Option Nat :=
  if cs = [] then none else digitsGo cs 0

/-- An optionally signed decimal numeral's value. -/
def pyIntChars : List Char → Option Int
  | '-' :: rest => (digitsOf rest).map (fun n => -(n : Int))
  | '+' :: rest => (digitsOf rest).map (fun n => (n : Int))
  | cs => (digitsOf cs).map (fun n => (n : Int))

/-- Python `int(s)` on the decimal strings this program feeds it: strip
whitespace, then parse an optionally signed decimal numeral (`none` is
Python's `ValueError`; digit-group underscores are not modelled — no input
here contains them). -/
def pyInt? (s : String) : Option Int := pyIntChars (pyTrim s.data)

/-- Python `s.split(sep)` for a one-character separator. -/
def splitOnChar (sep : Char) : List Char → List (List Char)
  | [] => [[]]
  | c :: rest =>
    if c = sep then [] :: splitOnChar sep rest
    else
      match splitOnChar sep rest with
      | g :: gs => (c :: g) :: gs
      | [] => [[c]]

/-- Python `s.split(sep)` on strings, single-character separator. -/
def pySplit (sep : Char) (s : String) : List String :=
  (splitOnChar sep s.data).map (fun g => (⟨g⟩ : String))

/-- Python `sep.join(parts)`. -/
def pyJoin (sep : String) : List String → String
  | [] => ""
  | [s] => s
  | s :: rest => s ++ sep ++ pyJoin sep rest

/-- Python `len(s)` for the (ASCII) strings this program measures. -/
def pyLen (s : String) : Nat := s.data.length

/-- Python `s.endswith("!")`. -/
def endsBang (s : String) : Bool := s.data.getLast? = some ('!')

/-- Python `s.rstrip("!")`: remove every trailing `!`. -/
def rstripBang (s : String) : String :=
  ⟨(s.data.reverse.dropWhile (fun c => c = ('!'))).reverse⟩

/-- Python list indexing `l[i]` (negative indices count from the end);
`none` is `IndexError`. -/
def pyIndex (l : List α) (i : Int) : Option α :=
  let j := if i < 0 then i + l.length else i
  if 0 ≤ j then l.get? j.toNat else none

/-- Run a fallible extraction over a list in order, stopping at the first
error — the semantics of a Python `for` loop or list comprehension whose
body may raise. -/
def eachM (f : Track → Except Err β) : List Track → Except Err (List β)
  | [] => .ok []
  | t :: ts => do
    let b ← f t
    let bs ← eachM f ts
    .ok (b :: bs)

/-- A comprehension `[t for t in l if get(t) == v]` over dictionary field
`get`: raises `KeyError` at the first element missing the field. -/
def dictFilterEq (get : Track → Option String) (v : String) : List Track → Except Err (List Track)
  | [] => .ok []
  | t :: ts =>
    match get t with
    | none => .error .keyError
    | some x => (dictFilterEq get v ts).map (fun r => if x = v then t :: r else r)

/-- The `found = [...]` / `if found: tracks = found` idiom of
`getBestAudioTrack`: keep the filtered sublist only when it is non-empty. -/
def pickFound (l : List Track) (p : Track → Bool) : List Track :=
  let found := l.filter p
  if found ≠ [] then found else l

/-- `int(track["Channels"])` as a pure partial value. -/
def chanVal (t : Track) : Option Int := t.channels.bind pyInt?

/-- `int(track["BitRate"].split("/")[0])` as a pure partial value. -/
def brVal (t : Track) : Option Int :=
  t.bitRate.bind (fun s => pyInt? ((pySplit ('/') s).headD s))

/-- `int(track["Channels"])` with Python's errors: `KeyError` when the key is
absent, `ValueError` when the string does not parse. -/
def chanExtract (t : Track) : Except Err Int :=
  match t.channels with
  | none => .error .keyError
  | some s =>
    match pyInt? s with
    | none => .error .valueError
    | some n => .ok n

/-- `int(track["BitRate"].split("/")[0])` with Python's errors. -/
def brExtract (t : Track) : Except Err Int :=
  match t.bitRate with
  | none => .error .keyError
  | some s =>
    match pyInt? ((pySplit ('/') s).headD s) with
    | none => .error .valueError
    | some n => .ok n

/-- `getBestAudioTrack`, bitrate step (source lines 76–95): compute the
maximal bitrate (the loop raises on a missing or unparsable `BitRate`),
keep the tracks attaining it when that set is non-empty, return the single
survivor or fall back to the first. -/
def bestStep3 (tracks : List Track) : Except Err Track := do
  let brs ← eachM brExtract tracks
  let maxbitrate := brs.foldl max 0
  let tracks := pickFound tracks (fun t => brVal t == some maxbitrate)
  match tracks with
  | t :: _ => .ok t
  | [] => .error .trackNotFound

/-- `getBestAudioTrack`, lossless step (source lines 66–74): the comprehension
sits in a `try/except KeyError`, so a missing `Compression_Mode` anywhere
yields `found = []` and the candidate set is carried forward unchanged. -/
def bestStep2 (tracks : List Track) : Except Err Track :=
  let found :=
    if tracks.all (fun t => t.compressionMode.isSome)
    then tracks.filter (fun t => t.compressionMode == some ("Lossless"))
    else []
  let tracks := if found ≠ [] then found else tracks
  match tracks with
  | [t] => .ok t
  | _ => bestStep3 tracks

/-- `getBestAudioTrack`, channel step (source lines 50–64): the max loop is
outside any `try`, so a missing or unparsable `Channels` raises; the
`except KeyError` around the comprehension is unreachable because the loop
already evaluated `int(track["Channels"])` for every candidate. -/
def bestStep1 (tracks : List Track) : Except Err Track := do
  let chans ← eachM chanExtract tracks
  let maxchannels := chans.foldl max 0
  let tracks := pickFound tracks (fun t => chanVal t == some maxchannels)
  match tracks with
  | [t] => .ok t
  | _ => bestStep2 tracks

/-- Candidate set of `getBestAudioTrack` (source lines 41–44): audio tracks,
optionally restricted to an exact language match. -/
def audioCandidates (m : MediaFile) (language : String) : Except Err (List Track) := do
  let tracks ← dictFilterEq (fun t => t.typ) ("Audio") m.tracks
  if language ≠ "" then dictFilterEq (fun t => t.language) language tracks else .ok tracks

/-- `MediaFile.getBestAudioTrack` (source lines 34–95). -/
def getBestAudioTrack (m : MediaFile) (language : String := "") : Except Err Track :=
  if m.file = "" then .error .runtimeError
  else if language ≠ "" ∧ pyLen language ≠ 2 then .error .valueError
  else do
    let tracks ← audioCandidates m language
    if tracks = [] then .error .trackNotFound
    else bestStep1 tracks

/-- The global ordinal view (source line 107): tracks with a `StreamOrder`
key, in probe order. -/
def globalView (m : MediaFile) : List Track :=
  m.tracks.filter (fun t => t.streamOrder.isSome)

/-- `MediaFile.getTrack` (source lines 102–117).  Note the per-type view is
built from the full probe list, not from the `StreamOrder`-filtered one. -/
def getTrack (m : MediaFile) (id : Int) (tracktype : String := "") : Except Err Track :=
  if tracktype ∉ (["", "Video", "Audio", "Text"] : List String) then .error .valueError
  else do
    let tracks := globalView m
    let tracks ← if tracktype ≠ "" then dictFilterEq (fun t => t.typ) tracktype m.tracks else .ok tracks
    match pyIndex tracks id with
    | some t => .ok t
    | none => .error .trackNotFound

/-- The `Muxer` selection state: the probed input plus the three admitted
sequences.  The output-path and muxer-binary checks of `Muxer.__init__` are
filesystem effects, modelled in `mainTrace` below. -/
structure Muxer where
  infile : MediaFile
  outfile : String
  videotracks : List Track := []
  audiotracks : List Track := []
  texttracks : List Track := []
  deriving DecidableEq, Repr

/-- The `v`/`a`/`s` abbreviation expansion (source lines 161–166): any other
string passes through unchanged, to be judged by `getTrack`'s type check. -/
def mapTType (t : String) : String :=
  if t = "v" then "Video"
  else if t = "a" then "Audio"
  else if t = "s" then "Text"
  else t

/-- The parsing half of `Muxer.addTrack` (source lines 146–167): strip the
forced tag, then read the token as a global integer id or a `t:n` typed id.
Shape errors are Python `ValueError`s (from `int()` or tuple unpacking). -/
def parseTrackId (id : String) : Except Err (String × Int × Bool) :=
  let forced := endsBang id
  let id := rstripBang id
  match pyInt? id with
  | some n => .ok ("", n, forced)
  | none =>
    match pySplit (':') id with
    | [t, nstr] =>
      let tracktype := mapTType t
      match pyInt? nstr with
      | some n => .ok (tracktype, n, forced)
      | none => .error .valueError
    | _ => .error .valueError

/-- Source lines 172–174: overwrite the admitted track's flag keys
(`Default` is always `"No"`, marked `TODO` in the source). -/
def setFlags (forced : Bool) (t : Track) : Track :=
  { t with default := some ("No"), forced := some (if forced then "Yes" else "No") }

/-- `Muxer.addTrack` (source lines 145–184): parse the token, resolve it in
the catalog, overwrite the flag keys, append to the sequence of the track's
type. -/
def addTrack (mux : Muxer) (id : String) : Except Err Muxer := do
  let (tracktype, n, forced) ← parseTrackId id
  let track ← getTrack mux.infile n tracktype
  let track := setFlags forced track
  match track.typ with
  | some v =>
    if v = "Video" then .ok { mux with videotracks := mux.videotracks ++ [track] }
    else if v = "Audio" then .ok { mux with audiotracks := mux.audiotracks ++ [track] }
    else if v = "Text" then .ok { mux with texttracks := mux.texttracks ++ [track] }
    else .error .typeError
  | none => .error .keyError

/-- The duplicate-language scan of `addLangAudioTrack` (source lines 204–207):
walk the admitted audio tracks in order; `KeyError` at a track missing
`Language`, `true` at the first match. -/
def langScan : List Track → String → Except Err Bool
  | [], _ => .ok false
  | t :: ts, lang =>
    match t.language with
    | none => .error .keyError
    | some l => if l = lang then .ok true else langScan ts lang

/-- The `<lang>` / `<lang>?` classification of `addLangAudioTrack` (source
lines 195–201): 2 letters → required; 3 with trailing `?` → optional with
the first two letters; anything else is a `ValueError`. -/
def langParse (language : String) : Except Err (Bool × String) :=
  if pyLen language = 2 then .ok (false, language)
  else if pyLen language = 3 ∧ language.data.getLast? = some ('?') then
    .ok (true, (⟨language.data.take 2⟩ : String))
  else .error .valueError

/-- The `try` body of `addLangAudioTrack` (source line 210): re-resolve the
best track through `addTrack` by its `StreamOrder` string. -/
def resolveLangTrack (mux : Muxer) (language : String) : Except Err Muxer := do
  let best ← getBestAudioTrack mux.infile language
  let so ← getKey best.streamOrder
  addTrack mux so

/-- `Muxer.addLangAudioTrack` (source lines 186–213).  The `"any"` branch
appends the best track as-is (no flag assignment).  The `try` around the
final resolution covers both `getBestAudioTrack` and the nested `addTrack`,
and only `TrackNotFoundError` is downgraded for optional languages. -/
def addLangAudioTrack (mux : Muxer) (language : String) : Except Err Muxer :=
  if language = "any" then
    if mux.audiotracks = [] then
      (getBestAudioTrack mux.infile "").map
        (fun t => { mux with audiotracks := mux.audiotracks ++ [t] })
    else .ok mux
  else do
    let (optional, language) ← langParse language
    let dup ← langScan mux.audiotracks language
    if dup then .ok mux
    else
      match resolveLangTrack mux language with
      | .error .trackNotFound => if optional then .ok mux else .error .trackNotFound
      | r => r

/-- The implicit-video fallback shared by both command builders (source
lines 217 and 274). -/
def resolvedVideotracks (mux : Muxer) : Except Err (List Track) :=
  if mux.videotracks = [] then
    (getTrack mux.infile 0 ("Video")).map (fun t => [t])
  else .ok mux.videotracks

/-- `track["StreamOrder"]`. -/
def soOf (t : Track) : Except Err String := getKey t.streamOrder

/-- One `"0:" + track["StreamOrder"]` entry of the `--track-order` loop. -/
def trackorderArg (t : Track) : Except Err String :=
  (soOf t).map (fun so => "0:" ++ so)

/-- One iteration of the mkvmerge flag loop (source lines 260–264). -/
def mkvFlagArg (t : Track) : Except Err (List String) := do
  let so ← soOf t
  let d ← getKey t.default
  let f ← getKey t.forced
  .ok (["--default-track-flag", so ++ (if d = "Yes" then ":1" else ":0"),
        "--forced-display-flag", so ++ (if f = "Yes" then ":1" else ":0")])

/-- `Muxer.getMkvmergeCmd` (source lines 215–270). -/
def getMkvmergeCmd (mux : Muxer) : Except Err (List String) := do
  let videotracks ← resolvedVideotracks mux
  let audiotracks := mux.audiotracks
  let texttracks := mux.texttracks
  let videotrackids ← eachM soOf videotracks
  let audiotrackids ← eachM soOf audiotracks
  let texttrackids ← eachM soOf texttracks
  let trackorder ← eachM trackorderArg (videotracks ++ audiotracks ++ texttracks)
  let flagArgs ← eachM mkvFlagArg (videotracks ++ audiotracks ++ texttracks)
  .ok (["mkvmerge", "--track-order", pyJoin (",") trackorder, "-o", mux.outfile]
    ++ (if videotracks ≠ [] then ["--video-tracks", pyJoin (",") videotrackids]
        else ["--no-video"])
    ++ (if audiotracks ≠ [] then ["--audio-tracks", pyJoin (",") audiotrackids]
        else ["--no-audio"])
    ++ (if texttracks ≠ [] then ["--subtitle-tracks", pyJoin (",") texttrackids]
        else ["--no-subtitles"])
    ++ flagArgs.flatten ++ [mux.infile.file])

/-- The per-track loop of `getFfmpegCmd` (source lines 293–310), carrying the
output stream index `outid`. -/
def ffmpegTrackArgs : Nat → List Track → Except Err (List String)
  | _, [] => .ok []
  | outid, t :: ts => do
    let so ← soOf t
    let d ← getKey t.default
    let f ← getKey t.forced
    let disposition :=
      (if d = "Yes" then [("default" : String)] else []) ++ (if f = "Yes" then ["forced"] else [])
    let rest ← ffmpegTrackArgs (outid + 1) ts
    .ok (["-map", "0:" ++ so, "-disposition:" ++ toString outid,
          if disposition ≠ [] then pyJoin ("+") disposition else "0"] ++ rest)

/-- `Muxer.getFfmpegCmd` (source lines 272–318).  The `trackorder` list is
computed (and can raise `KeyError`) but is never used. -/
def getFfmpegCmd (mux : Muxer) : Except Err (List String) := do
  let videotracks ← resolvedVideotracks mux
  let all := videotracks ++ mux.audiotracks ++ mux.texttracks
  let _trackorder ← eachM trackorderArg all
  let sections ← ffmpegTrackArgs 0 all
  .ok (["ffmpeg", "-analyzeduration", "200M", "-probesize", "1G", "-i", mux.infile.file,
        "-c", "copy"]
    ++ sections
    ++ ["-start_at_zero", "-copyts", "-avoid_negative_ts", "disabled", mux.outfile])

/-- A backend-neutral stream reference: the stream identifier (`StreamOrder`)
plus its default and forced markings, as the spec's ordered stream plan. -/
abbrev StreamRef := String × Bool × Bool

/-- The stream-plan entry a command references for one admitted track:
identifier and decoded default/forced markings (`KeyError` when a needed key
is missing, exactly where the command builders would raise). -/
def planEntry (t : Track) : Except Err StreamRef := do
  let so ← soOf t
  let d ← getKey t.default
  let f ← getKey t.forced
  .ok (so, decide (d = "Yes"), decide (f = "Yes"))

/-- The ordered stream plan shared by both backends: the fallback-resolved
video sequence, then the audio and subtitle sequences, each mapped to
`StreamRef`s. -/
def streamPlan (mux : Muxer) : Except Err (List StreamRef × List StreamRef × List StreamRef) := do
  let videotracks ← resolvedVideotracks mux
  let pv ← eachM planEntry videotracks
  let pa ← eachM planEntry mux.audiotracks
  let pt ← eachM planEntry mux.texttracks
  .ok (pv, pa, pt)

/-- Keep-list (mkvmerge) flag directives for one plan entry. -/
def mkvFlagRender (e : StreamRef) : List String :=
  ["--default-track-flag", e.1 ++ (if e.2.1 then ":1" else ":0"),
   "--forced-display-flag", e.1 ++ (if e.2.2 then ":1" else ":0")]

/-- The keep-list (mkvmerge) command as a pure formatter over the ordered
stream plan: every directive is determined by the plan entries (in
video-audio-subtitle order), the output path and the input path. -/
def mkvCmdOfPlan (pv pa pt : List StreamRef) (outfile infile : String) : List String :=
  ["mkvmerge", "--track-order",
    pyJoin (",") ((pv ++ pa ++ pt).map (fun e => "0:" ++ e.1)), "-o", outfile]
  ++ (if pv ≠ [] then ["--video-tracks", pyJoin (",") (pv.map (fun e => e.1))]
      else ["--no-video"])
  ++ (if pa ≠ [] then ["--audio-tracks", pyJoin (",") (pa.map (fun e => e.1))]
      else ["--no-audio"])
  ++ (if pt ≠ [] then ["--subtitle-tracks", pyJoin (",") (pt.map (fun e => e.1))]
      else ["--no-subtitles"])
  ++ ((pv ++ pa ++ pt).map mkvFlagRender).flatten ++ [infile]

/-- Map-list (ffmpeg) disposition value for one plan entry. -/
def ffmpegDispoRender (e : StreamRef) : String :=
  let disposition :=
    (if e.2.1 then [("default" : String)] else []) ++ (if e.2.2 then ["forced"] else [])
  if disposition ≠ [] then pyJoin ("+") disposition else "0"

/-- Map-list (ffmpeg) per-stream section as a pure formatter over the plan,
with the running output stream index. -/
def ffmpegPlanSection : Nat → List StreamRef → List String
  | _, [] => []
  | i, e :: es =>
    ["-map", "0:" ++ e.1, "-disposition:" ++ toString i, ffmpegDispoRender e]
      ++ ffmpegPlanSection (i + 1) es

/-- The map-list (ffmpeg) command as a pure formatter over the ordered
stream plan. -/
def ffmpegCmdOfPlan (plan : List StreamRef) (outfile infile : String) : List String :=
  ["ffmpeg", "-analyzeduration", "200M", "-probesize", "1G", "-i", infile, "-c", "copy"]
  ++ ffmpegPlanSection 0 plan
  ++ ["-start_at_zero", "-copyts", "-avoid_negative_ts", "disabled", outfile]

/-- Observable effects of `main` (source lines 362–379), in program order. -/
inductive Ev where
  | outputCheck
  | addTrackEv (tok : String)
  | addLangEv (code : String)
  | runMux
  deriving DecidableEq, Repr

/-- Whether an event is a selection step (manual or language admission). -/
def isSelection : Ev → Bool
  | .addTrackEv _ => true
  | .addLangEv _ => true
  | _ => false

/-- Order of effects in `main`: the `Muxer` constructor — which performs the
output-file-exists and output-directory-exists checks (source lines
132–137) — runs first, then the manual-track loop, then the language loop
(skipped entirely when `"none"` is among the requested codes), then the mux
run. -/
def mainTrace (tracks langs : List String) : List Ev :=
  [Ev.outputCheck] ++ tracks.map Ev.addTrackEv
    ++ (if langs.contains ("none") then [] else langs.map Ev.addLangEv)
    ++ [Ev.runMux]

/-! ### Concrete fixtures (used by witnesses and counterexamples) -/

/-- A video track with stream identifier 0. -/
def trackV0 : Track := { typ := some "Video", streamOrder := some "0" }

/-- A 6-channel lossy English audio track (spec §8 scenario). -/
def trackA1 : Track :=
  { typ := some "Audio", streamOrder := some "1", language := some "en",
    channels := some "6", compressionMode := some "Lossy", bitRate := some "640000" }

/-- A 2-channel lossy English audio track (spec §8 scenario). -/
def trackA2 : Track :=
  { typ := some "Audio", streamOrder := some "2", language := some "en",
    channels := some "2", compressionMode := some "Lossy", bitRate := some "128000" }

/-- A 6-channel lossless Japanese audio track with an `"N / M"` bit rate. -/
def trackA3 : Track :=
  { typ := some "Audio", streamOrder := some "3", language := some "ja",
    channels := some "6", compressionMode := some "Lossless",
    bitRate := some "1536000 / 768000" }

/-- The spec §8 scenario catalog. -/
def mfScenario : MediaFile := { file := "in.mkv", tracks := [trackV0, trackA1, trackA2, trackA3] }

/-- A fresh selection state over the scenario catalog. -/
def muxScenario : Muxer := { infile := mfScenario, outfile := "out.mkv" }

/-! ### Helper lemmas -/

theorem bindOk {α β : Type} {x : Except Err α} {f : α → Except Err β} {b : β} :
    (x >>= f) = Except.ok b ↔ ∃ a, x = Except.ok a ∧ f a = Except.ok b := by
  cases x <;> simp [Bind.bind, Except.bind]

theorem mapOk {α β : Type} {x : Except Err α} {g : α → β} {b : β} :
    x.map g = Except.ok b ↔ ∃ a, x = Except.ok a ∧ g a = b := by
  cases x <;> simp [Except.map]

@[simp] theorem eachM_nil {β : Type} (f : Track → Except Err β) : eachM f [] = .ok [] := rfl

theorem eachM_cons_ok {β : Type} {f : Track → Except Err β} {t : Track} {ts : List Track}
    {bs : List β} :
    eachM f (t :: ts) = .ok bs ↔
      ∃ b rest, f t = .ok b ∧ eachM f ts = .ok rest ∧ bs = b :: rest := by
  simp only [eachM, bindOk]
  constructor
  · rintro ⟨b, hb, rest, hrest, hpure⟩
    cases hpure
    exact ⟨b, rest, hb, hrest, rfl⟩
  · rintro ⟨b, rest, hb, hrest, rfl⟩
    exact ⟨b, hb, rest, hrest, rfl⟩

theorem eachM_length {β : Type} {f : Track → Except Err β} :
    ∀ {l : List Track} {bs : List β}, eachM f l = .ok bs → bs.length = l.length := by
  intro l
  induction l with
  | nil => intro bs h; cases h; rfl
  | cons t ts ih =>
    intro bs h
    rcases eachM_cons_ok.mp h with ⟨b, rest, _, hrest, rfl⟩
    simp [ih hrest]

theorem eachM_append {β : Type} {f : Track → Except Err β} :
    ∀ {l₁ l₂ : List Track} {b₁ b₂ : List β},
      eachM f l₁ = .ok b₁ → eachM f l₂ = .ok b₂ → eachM f (l₁ ++ l₂) = .ok (b₁ ++ b₂) := by
  intro l₁
  induction l₁ with
  | nil => intro l₂ b₁ b₂ h1 h2; cases h1; simpa using h2
  | cons t ts ih =>
    intro l₂ b₁ b₂ h1 h2
    rcases eachM_cons_ok.mp h1 with ⟨b, rest, hb, hrest, rfl⟩
    exact eachM_cons_ok.mpr ⟨b, rest ++ b₂, hb, ih hrest h2, rfl⟩

theorem eachM_of_eachM {β γ : Type} {f : Track → Except Err β} {h : Track → Except Err γ}
    {g : β → γ} (hfg : ∀ t e, f t = .ok e → h t = .ok (g e)) :
    ∀ {l : List Track} {bs : List β}, eachM f l = .ok bs → eachM h l = .ok (bs.map g) := by
  intro l
  induction l with
  | nil => intro bs hb; cases hb; rfl
  | cons t ts ih =>
    intro bs hb
    rcases eachM_cons_ok.mp hb with ⟨b, rest, hb1, hrest, rfl⟩
    exact eachM_cons_ok.mpr ⟨g b, rest.map g, hfg t b hb1, ih hrest, rfl⟩

theorem foldl_max_mono : ∀ (l : List Int) {a b : Int}, a ≤ b → l.foldl max a ≤ l.foldl max b := by
  intro l
  induction l with
  | nil => intro a b h; simpa using h
  | cons x xs ih =>
    intro a b h
    simpa using ih (max_le_max h (le_refl x))

theorem le_foldl_max : ∀ (l : List Int) (a : Int), a ≤ l.foldl max a := by
  intro l
  induction l with
  | nil => intro a; simp
  | cons x xs ih =>
    intro a
    calc a ≤ max a x := le_max_left a x
    _ ≤ xs.foldl max (max a x) := ih (max a x)
    _ = (x :: xs).foldl max a := rfl

theorem mem_le_foldl_max : ∀ (l : List Int) (a : Int), ∀ w ∈ l, w ≤ l.foldl max a := by
  intro l
  induction l with
  | nil => intro a w hw; simp at hw
  | cons x xs ih =>
    intro a w hw
    rcases List.mem_cons.mp hw with rfl | hw
    · calc w ≤ max a w := le_max_right a w
      _ ≤ xs.foldl max (max a w) := le_foldl_max xs (max a w)
      _ = (w :: xs).foldl max a := rfl
    · exact ih (max a x) w hw

theorem foldl_max_cases : ∀ (l : List Int) (a : Int), l.foldl max a = a ∨ l.foldl max a ∈ l := by
  intro l
  induction l with
  | nil => intro a; left; rfl
  | cons x xs ih =>
    intro a
    rcases ih (max a x) with h | h
    · rcases le_total a x with hax | hax
      · right
        rw [List.foldl_cons, h, max_eq_right hax]
        exact List.mem_cons_self x xs
      · left
        rw [List.foldl_cons, h, max_eq_left hax]
    · right
      rw [List.foldl_cons]
      exact List.mem_cons.mpr (Or.inr h)

theorem maxAttained (l : List Int) (hne : l ≠ []) (hpos : ∀ v ∈ l, 0 ≤ v) :
    l.foldl max 0 ∈ l ∧ ∀ w ∈ l, w ≤ l.foldl max 0 := by
  refine ⟨?_, mem_le_foldl_max l 0⟩
  rcases foldl_max_cases l 0 with h | h
  · rcases l with _ | ⟨x, xs⟩
    · exact absurd rfl hne
    · have hx0 : 0 ≤ x := hpos x (List.mem_cons_self x xs)
      have hxle : x ≤ (x :: xs).foldl max 0 := mem_le_foldl_max _ 0 x (List.mem_cons_self x xs)
      have : x = 0 := le_antisymm (h ▸ hxle) hx0
      rw [h, ← this]
      exact List.mem_cons_self x xs
  · exact h

theorem find?_eq_head?_filter {α : Type} (p : α → Bool) :
    ∀ (l : List α), l.find? p = (l.filter p).head? := by
  intro l
  induction l with
  | nil => rfl
  | cons x xs ih =>
    cases hx : p x
    · rw [List.find?_cons_of_neg _ (by simp [hx]), List.filter_cons_of_neg (by simp [hx]), ih]
    · rw [List.find?_cons_of_pos _ hx, List.filter_cons_of_pos hx, List.head?_cons]

@[simp] theorem ok_bind {α β : Type} (a : α) (f : α → Except Err β) :
    (Except.ok a >>= f) = f a := rfl

@[simp] theorem error_bind {α β : Type} (e : Err) (f : α → Except Err β) :
    ((Except.error e : Except Err α) >>= f) = Except.error e := rfl

@[simp] theorem ok_map {α β : Type} (a : α) (g : α → β) :
    (Except.ok a : Except Err α).map g = Except.ok (g a) := rfl

/-- The maximal channel count the first refinement loop computes. -/
def maxChanOf (l : List Track) : Int := (l.filterMap chanVal).foldl max 0

/-- Survivors of the channel-count refinement. -/
def chanSurvivors (l : List Track) : List Track :=
  l.filter (fun t => chanVal t == some (maxChanOf l))

/-- The maximal bit rate the third refinement loop computes. -/
def maxBrOf (l : List Track) : Int := (l.filterMap brVal).foldl max 0

/-- The `if len(tracks) == 1: return tracks[0]` early-return checkpoints. -/
def singletonOr (l : List Track) (k : List Track → Except Err Track) : Except Err Track :=
  match l with
  | [t] => .ok t
  | _ => k l

theorem chanExtract_of_val {t : Track} {c : Int} (h : chanVal t = some c) :
    chanExtract t = .ok c := by
  unfold chanVal at h
  unfold chanExtract
  cases hch : t.channels with
  | none => rw [hch] at h; simp at h
  | some s =>
    rw [hch] at h
    simp only [Option.some_bind] at h
    show (match pyInt? s with
          | none => Except.error Err.valueError
          | some n => Except.ok n) = Except.ok c
    rw [h]

theorem brExtract_of_val {t : Track} {b : Int} (h : brVal t = some b) :
    brExtract t = .ok b := by
  unfold brVal at h
  unfold brExtract
  cases hbr : t.bitRate with
  | none => rw [hbr] at h; simp at h
  | some s =>
    rw [hbr] at h
    simp only [Option.some_bind] at h
    show (match pyInt? ((pySplit ('/') s).headD s) with
          | none => Except.error Err.valueError
          | some n => Except.ok n) = Except.ok b
    rw [h]

theorem eachM_vals {ext : Track → Except Err Int} {val : Track → Option Int}
    (hok : ∀ t c, val t = some c → ext t = .ok c) :
    ∀ {l : List Track}, (∀ t ∈ l, ∃ c, val t = some c) →
      eachM ext l = .ok (l.filterMap val) := by
  intro l
  induction l with
  | nil => intro _; rfl
  | cons t ts ih =>
    intro hall
    obtain ⟨c, hc⟩ := hall t (List.mem_cons_self t ts)
    have hrest := ih (fun u hu => hall u (List.mem_cons_of_mem t hu))
    refine eachM_cons_ok.mpr ⟨c, ts.filterMap val, hok t c hc, hrest, ?_⟩
    rw [List.filterMap_cons, hc]

theorem filterMap_vals_pos {val : Track → Option Int} {l : List Track}
    (h : ∀ t ∈ l, ∃ b, val t = some b ∧ 0 ≤ b) :
    ∀ v ∈ l.filterMap val, 0 ≤ v := by
  intro v hv
  rcases List.mem_filterMap.mp hv with ⟨u, hu, hval⟩
  obtain ⟨b, hb, hbpos⟩ := h u hu
  rw [hb] at hval
  cases hval
  exact hbpos

theorem filterMap_vals_ne_nil {val : Track → Option Int} {l : List Track} (hne : l ≠ [])
    (h : ∀ t ∈ l, ∃ b, val t = some b ∧ 0 ≤ b) :
    l.filterMap val ≠ [] := by
  rcases l with _ | ⟨t, ts⟩
  · exact absurd rfl hne
  · obtain ⟨b, hb, _⟩ := h t (List.mem_cons_self t ts)
    intro hcon
    have : b ∈ List.filterMap val (t :: ts) :=
      List.mem_filterMap.mpr ⟨t, List.mem_cons_self t ts, hb⟩
    rw [hcon] at this
    simp at this

/-- Under total, nonnegative bit rates, the bitrate step returns the first
candidate (in order) attaining the maximal bit rate. -/
theorem bestStep3_ok {l : List Track} (hne : l ≠ [])
    (hbr : ∀ t ∈ l, ∃ b, brVal t = some b ∧ 0 ≤ b) {t : Track}
    (hfind : l.find? (fun u => brVal u == some (maxBrOf l)) = some t) :
    bestStep3 l = .ok t := by
  have he : eachM brExtract l = .ok (l.filterMap brVal) :=
    eachM_vals (fun u c h => brExtract_of_val h) (fun u hu => (hbr u hu).imp (fun b hb => hb.1))
  have hvne : l.filterMap brVal ≠ [] := filterMap_vals_ne_nil hne hbr
  have hvpos : ∀ v ∈ l.filterMap brVal, 0 ≤ v := filterMap_vals_pos hbr
  obtain ⟨hmem, _⟩ := maxAttained _ hvne hvpos
  rcases List.mem_filterMap.mp hmem with ⟨u, hu, huval⟩
  have hufound : u ∈ l.filter (fun u => brVal u == some (maxBrOf l)) :=
    List.mem_filter.mpr ⟨hu, by rw [huval]; exact beq_self_eq_true _⟩
  have hfne : l.filter (fun u => brVal u == some (maxBrOf l)) ≠ [] :=
    List.ne_nil_of_mem hufound
  unfold bestStep3
  rw [he, ok_bind]
  show (let tracks := pickFound l (fun u => brVal u == some (maxBrOf l));
        match tracks with
        | t :: _ => Except.ok t
        | [] => Except.error Err.trackNotFound) = Except.ok t
  rw [find?_eq_head?_filter] at hfind
  unfold pickFound
  rw [if_pos hfne]
  rcases hfl : l.filter (fun u => brVal u == some (maxBrOf l)) with _ | ⟨a, rest⟩
  · exact absurd hfl hfne
  · rw [hfl] at hfind
    simp only [List.head?_cons, Option.some.injEq] at hfind
    rw [hfind]

/-- When every candidate is Lossless, the lossless step keeps the whole set. -/
theorem bestStep2_all_lossless {l : List Track}
    (h : ∀ t ∈ l, t.compressionMode = some ("Lossless")) :
    bestStep2 l = singletonOr l bestStep3 := by
  have hall : l.all (fun t => t.compressionMode.isSome) = true := by
    rw [List.all_eq_true]
    intro t ht
    rw [h t ht]
    rfl
  have hfil : l.filter (fun t => t.compressionMode == some ("Lossless")) = l :=
    List.filter_eq_self.mpr (fun t ht => by rw [h t ht]; exact beq_self_eq_true _)
  unfold bestStep2 singletonOr
  rw [hall, if_pos rfl, hfil]
  simp only [ite_self]

/-- When some candidate lacks `Compression_Mode`, the `KeyError` is caught,
`found` is empty and the lossless step carries the whole set forward. -/
theorem bestStep2_skip {l : List Track} (hmiss : ∃ t ∈ l, t.compressionMode = none) :
    bestStep2 l = singletonOr l bestStep3 := by
  have hall : l.all (fun t => t.compressionMode.isSome) = false := by
    rw [List.all_eq_false]
    obtain ⟨t, ht, hnone⟩ := hmiss
    exact ⟨t, ht, by simp [hnone]⟩
  unfold bestStep2 singletonOr
  rw [hall]
  simp only [Bool.false_eq_true, if_false, ne_eq, not_true_eq_false, if_neg, not_false_eq_true,
    ite_false]

/-- Under total, nonnegative channel counts, the channel step reduces to the
survivor set (returning immediately when one candidate remains). -/
theorem bestStep1_ok {l : List Track} (hne : l ≠ [])
    (h : ∀ t ∈ l, ∃ c, chanVal t = some c ∧ 0 ≤ c) :
    bestStep1 l = singletonOr (chanSurvivors l) bestStep2 := by
  have he : eachM chanExtract l = .ok (l.filterMap chanVal) :=
    eachM_vals (fun u c hc => chanExtract_of_val hc) (fun u hu => (h u hu).imp (fun c hc => hc.1))
  have hvne : l.filterMap chanVal ≠ [] := filterMap_vals_ne_nil hne h
  have hvpos : ∀ v ∈ l.filterMap chanVal, 0 ≤ v := filterMap_vals_pos h
  obtain ⟨hmem, _⟩ := maxAttained _ hvne hvpos
  rcases List.mem_filterMap.mp hmem with ⟨u, hu, huval⟩
  have hfne : List.filter (fun t => chanVal t == some (maxChanOf l)) l ≠ [] :=
    List.ne_nil_of_mem (List.mem_filter.mpr ⟨hu, by rw [huval]; exact beq_self_eq_true _⟩)
  unfold bestStep1
  rw [he, ok_bind]
  show (let tracks := pickFound l (fun t => chanVal t == some (maxChanOf l));
        match tracks with
        | [t] => Except.ok t
        | _ => bestStep2 tracks) = _
  unfold pickFound singletonOr chanSurvivors
  rw [if_pos hfne]

/-- The channel survivor set is never empty when channel counts are total
and nonnegative. -/
theorem chanSurvivors_ne_nil {l : List Track} (hne : l ≠ [])
    (h : ∀ t ∈ l, ∃ c, chanVal t = some c ∧ 0 ≤ c) :
    chanSurvivors l ≠ [] := by
  have hvne : l.filterMap chanVal ≠ [] := filterMap_vals_ne_nil hne h
  have hvpos : ∀ v ∈ l.filterMap chanVal, 0 ≤ v := filterMap_vals_pos h
  obtain ⟨hmem, _⟩ := maxAttained _ hvne hvpos
  rcases List.mem_filterMap.mp hmem with ⟨u, hu, huval⟩
  exact List.ne_nil_of_mem
    (List.mem_filter.mpr ⟨hu, by rw [huval]; exact beq_self_eq_true _⟩)

/-- The final `return tracks[0]` fallback of the bitrate step. -/
def headOr (l : List Track) : Except Err Track :=
  match l with
  | t :: _ => .ok t
  | [] => .error .trackNotFound

/-- The candidate set after the lossless refinement. -/
def losslessPick (l : List Track) : List Track :=
  let found :=
    if l.all (fun t => t.compressionMode.isSome)
    then l.filter (fun t => t.compressionMode == some ("Lossless"))
    else []
  if found ≠ [] then found else l

theorem bestStep3_eq (l : List Track) :
    bestStep3 l = (eachM brExtract l) >>= fun brs =>
      headOr (pickFound l (fun t => brVal t == some (brs.foldl max 0))) := rfl

theorem bestStep2_eq (l : List Track) :
    bestStep2 l = singletonOr (losslessPick l) bestStep3 := rfl

theorem bestStep1_eq (l : List Track) :
    bestStep1 l = (eachM chanExtract l) >>= fun chans =>
      singletonOr (pickFound l (fun t => chanVal t == some (chans.foldl max 0))) bestStep2 := rfl

theorem pickFound_subset (l : List Track) (p : Track → Bool) : pickFound l p ⊆ l := by
  unfold pickFound
  by_cases h : l.filter p ≠ []
  · rw [if_pos h]
    exact fun x hx => (List.mem_filter.mp hx).1
  · rw [if_neg h]
    exact List.Subset.refl l

theorem losslessPick_subset (l : List Track) : losslessPick l ⊆ l := by
  unfold losslessPick
  by_cases hc : l.all (fun t => t.compressionMode.isSome)
  · rw [if_pos hc]
    by_cases hf : l.filter (fun t => t.compressionMode == some ("Lossless")) ≠ []
    · rw [if_pos hf]
      exact fun x hx => (List.mem_filter.mp hx).1
    · rw [if_neg hf]
      exact List.Subset.refl l
  · rw [if_neg hc]
    rw [if_neg (by simp)]
    exact List.Subset.refl l

theorem headOr_mem {l : List Track} {t : Track} (h : headOr l = .ok t) : t ∈ l := by
  rcases l with _ | ⟨a, rest⟩
  · simp [headOr] at h
  · simp only [headOr, Except.ok.injEq] at h
    subst h
    exact List.mem_cons_self a rest

theorem singletonOr_mem {l : List Track} {k : List Track → Except Err Track} {t : Track}
    (hk : ∀ {l' : List Track} {t' : Track}, k l' = .ok t' → t' ∈ l')
    (h : singletonOr l k = .ok t) : t ∈ l := by
  rcases l with _ | ⟨a, rest⟩
  · exact hk h
  · rcases rest with _ | ⟨b, rest2⟩
    · simp only [singletonOr, Except.ok.injEq] at h
      subst h
      exact List.mem_cons_self a []
    · exact hk h

theorem bestStep3_mem {l : List Track} {t : Track} (h : bestStep3 l = .ok t) : t ∈ l := by
  rw [bestStep3_eq] at h
  cases he : eachM brExtract l with
  | error e => rw [he, error_bind] at h; simp at h
  | ok brs =>
    rw [he, ok_bind] at h
    exact pickFound_subset l _ (headOr_mem h)

theorem bestStep2_mem {l : List Track} {t : Track} (h : bestStep2 l = .ok t) : t ∈ l := by
  rw [bestStep2_eq] at h
  exact losslessPick_subset l (singletonOr_mem (fun h' => bestStep3_mem h') h)

theorem bestStep1_mem {l : List Track} {t : Track} (h : bestStep1 l = .ok t) : t ∈ l := by
  rw [bestStep1_eq] at h
  cases he : eachM chanExtract l with
  | error e => rw [he, error_bind] at h; simp at h
  | ok chans =>
    rw [he, ok_bind] at h
    exact pickFound_subset l _ (singletonOr_mem (fun h' => bestStep2_mem h') h)

theorem dictFilterEq_subset {get : Track → Option String} {v : String} :
    ∀ {l r : List Track}, dictFilterEq get v l = .ok r → r ⊆ l := by
  intro l
  induction l with
  | nil => intro r h; cases h; exact List.Subset.refl []
  | cons t ts ih =>
    intro r h
    unfold dictFilterEq at h
    cases hg : get t with
    | none => rw [hg] at h; simp at h
    | some x =>
      rw [hg] at h
      rcases mapOk.mp h with ⟨r0, hr0, hmap⟩
      subst hmap
      by_cases hx : x = v
      · rw [if_pos hx]
        exact List.cons_subset_cons t (ih hr0)
      · rw [if_neg hx]
        exact List.subset_cons_of_subset t (ih hr0)

theorem audioCandidates_subset {m : MediaFile} {language : String} {cs : List Track}
    (h : audioCandidates m language = .ok cs) : cs ⊆ m.tracks := by
  unfold audioCandidates at h
  cases ha : dictFilterEq (fun t => t.typ) ("Audio") m.tracks with
  | error e => rw [ha] at h; simp at h
  | ok a =>
    rw [ha, ok_bind] at h
    by_cases hl : language ≠ ""
    · rw [if_pos hl] at h
      exact (dictFilterEq_subset h).trans (dictFilterEq_subset ha)
    · rw [if_neg hl] at h
      cases h
      exact dictFilterEq_subset ha

theorem getBestAudioTrack_mem {m : MediaFile} {language : String} {t : Track}
    (h : getBestAudioTrack m language = .ok t) :
    ∃ cs, audioCandidates m language = .ok cs ∧ t ∈ cs := by
  unfold getBestAudioTrack at h
  by_cases h1 : m.file = ""
  · rw [if_pos h1] at h; simp at h
  · rw [if_neg h1] at h
    by_cases h2 : language ≠ "" ∧ pyLen language ≠ 2
    · rw [if_pos h2] at h; simp at h
    · rw [if_neg h2] at h
      cases hc : audioCandidates m language with
      | error e => rw [hc] at h; simp at h
      | ok cs =>
        rw [hc, ok_bind] at h
        by_cases h3 : cs = []
        · rw [if_pos h3] at h; simp at h
        · rw [if_neg h3] at h
          exact ⟨cs, rfl, bestStep1_mem h⟩

theorem pyIndex_mem {α : Type} {l : List α} {i : Int} {a : α} (h : pyIndex l i = some a) :
    a ∈ l := by
  unfold pyIndex at h
  by_cases h0 : 0 ≤ (if i < 0 then i + l.length else i)
  · rw [if_pos h0] at h
    exact List.get?_mem h
  · rw [if_neg h0] at h
    simp at h

theorem pyIndex_nonneg {α : Type} (l : List α) {n : Int} (hn : 0 ≤ n) :
    pyIndex l n = l.get? n.toNat := by
  unfold pyIndex
  rw [if_neg (by omega : ¬ n < 0), if_pos hn]

theorem nodup_get?_iff {α : Type} [DecidableEq α] :
    ∀ (l : List α), l.Nodup → ∀ a ∈ l, ∀ i : Nat, (l.get? i = some a ↔ l.indexOf a = i) := by
  intro l
  induction l with
  | nil => intro _ a ha; simp at ha
  | cons x xs ih =>
    intro hnd a ha i
    rw [List.nodup_cons] at hnd
    obtain ⟨hx, hxs⟩ := hnd
    cases i with
    | zero =>
      by_cases hax : a = x
      · subst hax
        simp [List.indexOf_cons_self]
      · constructor
        · intro h
          simp only [List.get?] at h
          cases h
          exact absurd rfl hax
        · intro h
          rw [List.indexOf_cons_ne _ (by exact fun hc => hax hc.symm)] at h
          simp at h
    | succ i =>
      by_cases hax : a = x
      · subst hax
        constructor
        · intro h
          simp only [List.get?] at h
          exact absurd (List.get?_mem h) hx
        · intro h
          rw [List.indexOf_cons_self] at h
          simp at h
      · have haxs : a ∈ xs := by
          rcases List.mem_cons.mp ha with h | h
          · exact absurd h hax
          · exact h
        constructor
        · intro h
          simp only [List.get?] at h
          rw [List.indexOf_cons_ne _ (by exact fun hc => hax hc.symm)]
          rw [(ih hxs a haxs i).mp h]
        · intro h
          rw [List.indexOf_cons_ne _ (by exact fun hc => hax hc.symm)] at h
          simp only [List.get?]
          exact (ih hxs a haxs i).mpr (by omega)

@[simp] theorem singletonOr_single (t : Track) (k : List Track → Except Err Track) :
    singletonOr [t] k = .ok t := rfl

theorem singletonOr_of_len {l : List Track} (k : List Track → Except Err Track)
    (h : 2 ≤ l.length) : singletonOr l k = k l := by
  match l with
  | [] => simp at h
  | [a] => simp at h
  | a :: b :: r => rfl

/-- The guards of `getBestAudioTrack` pass and the candidate set is handed to
the cascade. -/
theorem getBestAudioTrack_eq {m : MediaFile} {language : String} {cs : List Track}
    (hfile : m.file ≠ "") (hlang : language = "" ∨ pyLen language = 2)
    (hcs : audioCandidates m language = .ok cs) (hne : cs ≠ []) :
    getBestAudioTrack m language = bestStep1 cs := by
  unfold getBestAudioTrack
  have hcond : ¬ (language ≠ "" ∧ pyLen language ≠ 2) := by
    rcases hlang with rfl | h2
    · simp
    · exact fun hc => hc.2 h2
  rw [if_neg hfile, if_neg hcond, hcs, ok_bind, if_neg hne]

/-- When the lossless filter leaves exactly one candidate (and every
candidate has the key), that candidate is returned at once. -/
theorem bestStep2_singleton_lossless {l : List Track} {t : Track}
    (hall : ∀ u ∈ l, (u.compressionMode).isSome)
    (hfil : l.filter (fun u => u.compressionMode == some ("Lossless")) = [t]) :
    bestStep2 l = .ok t := by
  have hallb : l.all (fun u => u.compressionMode.isSome) = true :=
    List.all_eq_true.mpr (fun u hu => hall u hu)
  rw [bestStep2_eq]
  unfold losslessPick
  rw [hallb, if_pos rfl, hfil]
  rfl

/-- When every candidate shares the same nonnegative channel count, the
channel refinement keeps the whole set. -/
theorem const_chanSurvivors {cs : List Track} {c : Int} (hc : 0 ≤ c) (hne : cs ≠ [])
    (h : ∀ t ∈ cs, chanVal t = some c) : chanSurvivors cs = cs := by
  have hch : ∀ u ∈ cs, ∃ c', chanVal u = some c' ∧ 0 ≤ c' := fun u hu => ⟨c, h u hu, hc⟩
  have hmc : maxChanOf cs = c := by
    obtain ⟨hmem, _⟩ :=
      maxAttained _ (filterMap_vals_ne_nil hne hch) (filterMap_vals_pos hch)
    rcases List.mem_filterMap.mp hmem with ⟨u, hu, huval⟩
    rw [h u hu] at huval
    exact (Option.some_inj.mp huval).symm
  unfold chanSurvivors
  rw [hmc]
  exact List.filter_eq_self.mpr (fun u hu => by rw [h u hu]; exact beq_self_eq_true _)

/-! ### Claim theorems -/

/-- C3: For every non-empty Audio candidate set (optionally restricted to an
exact 2-letter language match) with parseable nonnegative channel counts,
`getBestAudioTrack` keeps the tracks of maximal channel count; it returns
immediately when exactly one candidate survives the channel step or the
lossless step; and on an all-Lossless survivor set with parseable
nonnegative bit rates it returns the first candidate in catalog order
attaining the maximal bit rate. -/
theorem bestAudio_cascade
    (m : MediaFile) (language : String) (cs : List Track)
    (hfile : m.file ≠ "") (hlang : language = "" ∨ pyLen language = 2)
    (hcs : audioCandidates m language = .ok cs) (hne : cs ≠ [])
    (hch : ∀ t ∈ cs, ∃ c, chanVal t = some c ∧ 0 ≤ c) :
    (∀ t ∈ chanSurvivors cs, chanVal t = some (maxChanOf cs)) ∧
    (∀ u ∈ cs, ∃ c, chanVal u = some c ∧ c ≤ maxChanOf cs) ∧
    (∀ t, chanSurvivors cs = [t] → getBestAudioTrack m language = .ok t) ∧
    ((∀ t ∈ chanSurvivors cs, (t.compressionMode).isSome) →
      ∀ t, (chanSurvivors cs).filter (fun u => u.compressionMode == some ("Lossless")) = [t] →
        getBestAudioTrack m language = .ok t) ∧
    ((∀ t ∈ chanSurvivors cs, t.compressionMode = some ("Lossless")) →
     (∀ t ∈ chanSurvivors cs, ∃ b, brVal t = some b ∧ 0 ≤ b) →
      ∀ t, (chanSurvivors cs).find?
            (fun u => brVal u == some (maxBrOf (chanSurvivors cs))) = some t →
        getBestAudioTrack m language = .ok t) := by
  have hbase : getBestAudioTrack m language = bestStep1 cs :=
    getBestAudioTrack_eq hfile hlang hcs hne
  have hstep1 : bestStep1 cs = singletonOr (chanSurvivors cs) bestStep2 := bestStep1_ok hne hch
  have hS1ne : chanSurvivors cs ≠ [] := chanSurvivors_ne_nil hne hch
  refine ⟨?_, ?_, ?_, ?_, ?_⟩
  · intro t ht
    exact eq_of_beq (List.mem_filter.mp ht).2
  · intro u hu
    obtain ⟨c, hc, hcpos⟩ := hch u hu
    refine ⟨c, hc, ?_⟩
    exact (maxAttained (cs.filterMap chanVal) (filterMap_vals_ne_nil hne hch)
      (filterMap_vals_pos hch)).2 c (List.mem_filterMap.mpr ⟨u, hu, hc⟩)
  · intro t hS1
    rw [hbase, hstep1, hS1]
    rfl
  · intro hallSome t hfil
    rcases hS1 : chanSurvivors cs with _ | ⟨a, rest⟩
    · exact absurd hS1 hS1ne
    · rw [hS1] at hallSome hfil
      rcases rest with _ | ⟨b, rest2⟩
      · have htmem : t ∈ List.filter (fun u => u.compressionMode == some ("Lossless")) [a] := by
          rw [hfil]
          exact List.mem_singleton_self t
        have hta : t = a := List.mem_singleton.mp ((List.mem_filter.mp htmem).1)
        rw [hbase, hstep1, hS1, hta]
        rfl
      · rw [hbase, hstep1, hS1, singletonOr_of_len _ (by simp)]
        exact bestStep2_singleton_lossless hallSome hfil
  · intro hll hbr t hfind
    rcases hS1 : chanSurvivors cs with _ | ⟨a, rest⟩
    · exact absurd hS1 hS1ne
    · rw [hS1] at hll hbr hfind
      rcases rest with _ | ⟨b, rest2⟩
      · have hta : t = a := List.mem_singleton.mp (List.mem_of_find?_eq_some hfind)
        rw [hbase, hstep1, hS1, hta]
        rfl
      · rw [hbase, hstep1, hS1, singletonOr_of_len _ (by simp),
            bestStep2_all_lossless hll, singletonOr_of_len _ (by simp)]
        exact bestStep3_ok (by simp) hbr hfind

/-- A 6-channel lossless audio track. -/
def trackLL1 : Track :=
  { typ := some "Audio", streamOrder := some "0", language := some "en",
    channels := some "6", compressionMode := some "Lossless", bitRate := some "640000" }

/-- A 6-channel lossless audio track with higher, `"N / M"`-form bit rate. -/
def trackLL2 : Track :=
  { typ := some "Audio", streamOrder := some "1", language := some "en",
    channels := some "6", compressionMode := some "Lossless",
    bitRate := some "1536000 / 768000" }

/-- An all-lossless catalog with a bit-rate tie-break. -/
def mfLossless : MediaFile := { file := "f.mkv", tracks := [trackLL1, trackLL2] }

/-- Witness for C3: on the §8 scenario, `"en"` resolves to the 6-channel
track by the channel early-return; on the all-lossless catalog the
maximal-bit-rate track is picked. -/
theorem bestAudio_cascade_witness :
    getBestAudioTrack mfScenario ("en") = .ok trackA1 ∧
    getBestAudioTrack mfLossless ("") = .ok trackLL2 := by
  constructor
  · exact (bestAudio_cascade mfScenario ("en") [trackA1, trackA2] (by decide)
      (Or.inr (by decide)) (by decide) (by decide)
      (by
        intro t ht
        rcases List.mem_cons.mp ht with rfl | ht2
        · exact ⟨6, by decide, by decide⟩
        rcases List.mem_cons.mp ht2 with rfl | ht3
        · exact ⟨2, by decide, by decide⟩
        · simp at ht3)).2.2.1 trackA1 (by decide)
  · refine (bestAudio_cascade mfLossless ("") [trackLL1, trackLL2] (by decide)
      (Or.inl rfl) (by decide) (by decide)
      (by
        intro t ht
        rcases List.mem_cons.mp ht with rfl | ht2
        · exact ⟨6, by decide, by decide⟩
        rcases List.mem_cons.mp ht2 with rfl | ht3
        · exact ⟨6, by decide, by decide⟩
        · simp at ht3)).2.2.2.2 (by decide) ?_ trackLL2 (by decide)
    intro t ht
    have hs : chanSurvivors [trackLL1, trackLL2] = [trackLL1, trackLL2] := by decide
    rw [hs] at ht
    rcases List.mem_cons.mp ht with rfl | ht2
    · exact ⟨640000, by decide, by decide⟩
    rcases List.mem_cons.mp ht2 with rfl | ht3
    · exact ⟨1536000, by decide, by decide⟩
    · simp at ht3

/-- An audio track with no `Channels` key. -/
def trackNoChan : Track := { typ := some "Audio", streamOrder := some "9" }

/-- A catalog on which the channel-count loop hits a missing key. -/
def mfMissingChan : MediaFile := { file := "f.mkv", tracks := [trackA1, trackNoChan] }

/-- C4 counterexample: a missing `Channels` key on one candidate makes
`getBestAudioTrack` raise `KeyError` (the max-channel loop sits outside any
`try`), not skip the refinement — refuting the claim that `bestAudio` fails
only with `TrackNotFound` and degrades gracefully for every attribute. -/
theorem bestAudio_missing_channels_keyerror :
    getBestAudioTrack mfMissingChan ("") = .error Err.keyError := by decide

/-- C4 (amended): graceful degradation holds for the compression-mode
refinement only — with a `Compression_Mode` key missing somewhere, the
lossless step carries the whole candidate set forward unchanged and the
bitrate step decides; the `TrackNotFound` failure arises exactly on an
empty (language-filtered) candidate set. -/
theorem bestAudio_graceful_only_compression
    (m : MediaFile) (language : String) (cs : List Track)
    (hfile : m.file ≠ "") (hlang : language = "" ∨ pyLen language = 2)
    (hcs : audioCandidates m language = .ok cs) :
    ((2 ≤ cs.length) →
     (∃ c, 0 ≤ c ∧ ∀ t ∈ cs, chanVal t = some c) →
     (∃ t ∈ cs, t.compressionMode = none) →
     (∀ t ∈ cs, ∃ b, brVal t = some b ∧ 0 ≤ b) →
     ∀ t, cs.find? (fun u => brVal u == some (maxBrOf cs)) = some t →
       getBestAudioTrack m language = .ok t) ∧
    (cs = [] → getBestAudioTrack m language = .error .trackNotFound) := by
  constructor
  · intro hlen hconst hmiss hbr t hfind
    obtain ⟨c, hcpos, hcall⟩ := hconst
    have hne : cs ≠ [] := by
      intro h
      rw [h] at hlen
      simp at hlen
    have hch : ∀ u ∈ cs, ∃ c', chanVal u = some c' ∧ 0 ≤ c' :=
      fun u hu => ⟨c, hcall u hu, hcpos⟩
    rw [getBestAudioTrack_eq hfile hlang hcs hne, bestStep1_ok hne hch,
        const_chanSurvivors hcpos hne hcall, singletonOr_of_len _ hlen,
        bestStep2_skip hmiss, singletonOr_of_len _ hlen]
    exact bestStep3_ok hne hbr hfind
  · intro hnil
    subst hnil
    unfold getBestAudioTrack
    have hcond : ¬ (language ≠ "" ∧ pyLen language ≠ 2) := by
      rcases hlang with rfl | h2
      · simp
      · exact fun hc => hc.2 h2
    rw [if_neg hfile, if_neg hcond, hcs, ok_bind, if_pos rfl]

/-- A 2-channel audio track with no `Compression_Mode` key. -/
def trackNC1 : Track :=
  { typ := some "Audio", streamOrder := some "0", channels := some "2",
    bitRate := some "128000" }

/-- A higher-bit-rate 2-channel audio track with no `Compression_Mode` key. -/
def trackNC2 : Track :=
  { typ := some "Audio", streamOrder := some "1", channels := some "2",
    bitRate := some "256000" }

/-- A catalog lacking `Compression_Mode` everywhere. -/
def mfNoCompression : MediaFile := { file := "f.mkv", tracks := [trackNC1, trackNC2] }

/-- Witness for the amended C4: the lossless step is skipped on a catalog
without `Compression_Mode`, and an unmatched language yields
`TrackNotFound`. -/
theorem bestAudio_graceful_only_compression_witness :
    getBestAudioTrack mfNoCompression ("") = .ok trackNC2 ∧
    getBestAudioTrack mfScenario ("zz") = .error Err.trackNotFound := by
  constructor
  · exact (bestAudio_graceful_only_compression mfNoCompression ("") [trackNC1, trackNC2]
      (by decide) (Or.inl rfl) (by decide)).1 (by decide)
      ⟨2, by decide, by decide⟩ (by decide)
      (by
        intro t ht
        rcases List.mem_cons.mp ht with rfl | ht2
        · exact ⟨128000, by decide, by decide⟩
        rcases List.mem_cons.mp ht2 with rfl | ht3
        · exact ⟨256000, by decide, by decide⟩
        · simp at ht3)
      trackNC2 (by decide)
  · exact (bestAudio_graceful_only_compression mfScenario ("zz") [] (by decide)
      (Or.inr (by decide)) (by decide)).2 rfl

/-- C5 counterexample: the token `"0!!"` (two trailing `!`) does not fail
with an invalid-identifier error — `rstrip("!")` removes every trailing
bang — it parses and admits global track 0 marked forced. -/
theorem double_bang_token_accepted :
    addTrack muxScenario ("0!!") =
      .ok { muxScenario with videotracks := [setFlags true trackV0] } := by decide

/-- C5 (amended): all trailing `!` are stripped and `forced` is set iff the
token ends in `!`; a remaining integer resolves globally; `t:n` resolves
with `t` expanded through the `v`/`a`/`s` table (other strings pass through,
so `Video:0` is accepted too, judged by `getTrack`'s type check);
`ValueError` is raised exactly when neither the integer form nor a
two-field `t:n` form with integer `n` applies, or — at resolution — when
the passed-through type is unknown. -/
theorem identifier_grammar :
    (∀ (id tt : String) (n : Int) (f : Bool),
      parseTrackId id = .ok (tt, n, f) → f = endsBang id) ∧
    (∀ (id : String) (n : Int), pyInt? (rstripBang id) = some n →
      parseTrackId id = .ok ("", n, endsBang id)) ∧
    (∀ (id t nstr : String) (n : Int), pyInt? (rstripBang id) = none →
      pySplit (':') (rstripBang id) = [t, nstr] → pyInt? nstr = some n →
      parseTrackId id = .ok (mapTType t, n, endsBang id)) ∧
    (∀ id : String, parseTrackId id = .error .valueError ↔
      (pyInt? (rstripBang id) = none ∧
       ∀ t nstr : String, pySplit (':') (rstripBang id) = [t, nstr] → pyInt? nstr = none)) ∧
    (∀ (mux : Muxer) (id tt : String) (n : Int) (f : Bool),
      parseTrackId id = .ok (tt, n, f) → tt ∉ (["", "Video", "Audio", "Text"] : List String) →
      addTrack mux id = .error .valueError) := by
  have hshape : ∀ id : String, parseTrackId id =
      (match pyInt? (rstripBang id) with
       | some n => Except.ok (("" : String), n, endsBang id)
       | none =>
         match pySplit (':') (rstripBang id) with
         | [t, nstr] =>
           match pyInt? nstr with
           | some n => Except.ok (mapTType t, n, endsBang id)
           | none => Except.error Err.valueError
         | _ => Except.error Err.valueError) := fun id => rfl
  refine ⟨?_, ?_, ?_, ?_, ?_⟩
  · intro id tt n f h
    rw [hshape] at h
    cases hint : pyInt? (rstripBang id) with
    | some k =>
      rw [hint] at h
      have h' : Except.ok (("" : String), k, endsBang id) = Except.ok (tt, n, f) := h
      simp only [Except.ok.injEq, Prod.mk.injEq] at h'
      exact h'.2.2.symm
    | none =>
      rw [hint] at h
      rcases hsp : pySplit (':') (rstripBang id) with _ | ⟨t, _ | ⟨nstr, _ | ⟨x, xs⟩⟩⟩ <;>
        rw [hsp] at h
      · exact absurd h (by simp)
      · exact absurd h (by simp)
      · have h' : (match pyInt? nstr with
                   | some k => Except.ok (mapTType t, k, endsBang id)
                   | none => Except.error Err.valueError) = Except.ok (tt, n, f) := h
        cases hn : pyInt? nstr with
        | some k =>
          rw [hn] at h'
          simp only [Except.ok.injEq, Prod.mk.injEq] at h'
          exact h'.2.2.symm
        | none => rw [hn] at h'; simp at h'
      · exact absurd h (by simp)
  · intro id n h
    rw [hshape, h]
  · intro id t nstr n h1 h2 h3
    rw [hshape, h1, h2]
    show (match pyInt? nstr with
          | some k => Except.ok (mapTType t, k, endsBang id)
          | none => Except.error Err.valueError) = Except.ok (mapTType t, n, endsBang id)
    rw [h3]
  · intro id
    rw [hshape]
    constructor
    · intro h
      cases hint : pyInt? (rstripBang id) with
      | some k => rw [hint] at h; exact absurd h (by simp)
      | none =>
        refine ⟨rfl, ?_⟩
        intro t nstr hsp
        rw [hint, hsp] at h
        have h' : (match pyInt? nstr with
                   | some k => Except.ok (mapTType t, k, endsBang id)
                   | none => Except.error Err.valueError) = Except.error Err.valueError := h
        cases hn : pyInt? nstr with
        | some k => rw [hn] at h'; exact absurd h' (by simp)
        | none => rfl
    · rintro ⟨h1, h2⟩
      rw [h1]
      rcases hsp : pySplit (':') (rstripBang id) with _ | ⟨t, _ | ⟨nstr, _ | ⟨x, xs⟩⟩⟩
      · rfl
      · rfl
      · show (match pyInt? nstr with
              | some k => Except.ok (mapTType t, k, endsBang id)
              | none => Except.error Err.valueError) = Except.error Err.valueError
        rw [h2 t nstr hsp]
      · rfl
  · intro mux id tt n f h htt
    unfold addTrack
    rw [h, ok_bind]
    show (do
      let track ← getTrack mux.infile n tt
      let track := setFlags f track
      match track.typ with
      | some v =>
        if v = "Video" then .ok { mux with videotracks := mux.videotracks ++ [track] }
        else if v = "Audio" then .ok { mux with audiotracks := mux.audiotracks ++ [track] }
        else if v = "Text" then .ok { mux with texttracks := mux.texttracks ++ [track] }
        else .error .typeError
      | none => .error .keyError : Except Err Muxer) = .error .valueError
    unfold getTrack
    rw [if_pos htt, error_bind]

/-- Witness for the amended C5 grammar, one instance per clause. -/
theorem identifier_grammar_witness :
    (true = endsBang ("a:3!")) ∧
    parseTrackId ("7!!") = .ok ("", 7, endsBang ("7!!")) ∧
    parseTrackId ("a:3!") = .ok (mapTType ("a"), 3, endsBang ("a:3!")) ∧
    parseTrackId ("x") = .error .valueError ∧
    addTrack muxScenario ("q:0") = .error .valueError := by
  refine ⟨?_, ?_, ?_, ?_, ?_⟩
  · exact identifier_grammar.1 ("a:3!") ("Audio") 3 true (by decide)
  · exact identifier_grammar.2.1 ("7!!") 7 (by decide)
  · exact identifier_grammar.2.2.1 ("a:3!") ("a") ("3") 3 (by decide) (by decide) (by decide)
  · refine (identifier_grammar.2.2.2.1 ("x")).mpr ⟨by decide, ?_⟩
    intro t nstr hsp
    rw [show pySplit (':') (rstripBang ("x")) = ["x"] from by decide] at hsp
    simp at hsp
  · exact identifier_grammar.2.2.2.2 muxScenario ("q:0") ("q") 0 false (by decide) (by decide)

/-- An audio track whose probe data already carries `Forced: Yes`. -/
def trackForcedProbe : Track :=
  { typ := some "Audio", streamOrder := some "0", language := some "en",
    channels := some "2", compressionMode := some "Lossy", bitRate := some "128000",
    forced := some "Yes" }

/-- A catalog whose best audio track is probe-forced. -/
def mfForcedProbe : MediaFile := { file := "f.mkv", tracks := [trackForcedProbe] }

/-- A fresh selection state over that catalog. -/
def muxForcedProbe : Muxer := { infile := mfForcedProbe, outfile := "o.mkv" }

/-- C6 counterexample: `addLangAudioTrack "any"` appends the best track
as-is — no flag assignment — so a probe-carried `Forced: Yes` persists,
refuting "with default flags and not forced". -/
theorem any_admission_keeps_probe_forced :
    addLangAudioTrack muxForcedProbe ("any") =
      .ok { muxForcedProbe with audiotracks := [trackForcedProbe] } ∧
    trackForcedProbe.forced = some ("Yes") := ⟨by decide, rfl⟩

/-- C6 (amended): with an empty audio sequence, `"any"` admits
`getBestAudioTrack` with no language filter, appending the track unchanged
(its probe-carried flag keys, or their absence, persist); with a non-empty
audio sequence it is a no-op; and the operation is idempotent. -/
theorem any_admission_semantics :
    (∀ mux : Muxer, mux.audiotracks = [] → ∀ t, getBestAudioTrack mux.infile "" = .ok t →
      addLangAudioTrack mux ("any") = .ok { mux with audiotracks := mux.audiotracks ++ [t] }) ∧
    (∀ mux : Muxer, mux.audiotracks ≠ [] → addLangAudioTrack mux ("any") = .ok mux) ∧
    (∀ mux m' : Muxer, addLangAudioTrack mux ("any") = .ok m' →
      addLangAudioTrack m' ("any") = .ok m') := by
  have hbranch : ∀ mux : Muxer, addLangAudioTrack mux ("any") =
      (if mux.audiotracks = [] then
        (getBestAudioTrack mux.infile "").map
          (fun t => { mux with audiotracks := mux.audiotracks ++ [t] })
      else .ok mux) := by
    intro mux
    unfold addLangAudioTrack
    rw [if_pos rfl]
  refine ⟨?_, ?_, ?_⟩
  · intro mux hemp t hbest
    rw [hbranch, if_pos hemp, hbest, ok_map]
  · intro mux hne
    rw [hbranch, if_neg hne]
  · intro mux m' h
    rw [hbranch] at h
    by_cases hemp : mux.audiotracks = []
    · rw [if_pos hemp] at h
      cases hbest : getBestAudioTrack mux.infile "" with
      | error e => rw [hbest] at h; simp [Except.map] at h
      | ok t =>
        rw [hbest, ok_map] at h
        simp only [Except.ok.injEq] at h
        subst h
        rw [hbranch, if_neg (by simp)]
    · rw [if_neg hemp] at h
      simp only [Except.ok.injEq] at h
      subst h
      rw [hbranch, if_neg hemp]

/-- Witness for the amended C6: on the §8 scenario, `"any"` admits the
Japanese lossless track; a second `"any"` is a no-op. -/
theorem any_admission_semantics_witness :
    addLangAudioTrack muxScenario ("any") =
      .ok { muxScenario with audiotracks := [trackA3] } ∧
    addLangAudioTrack { muxScenario with audiotracks := [trackA3] } ("any") =
      .ok { muxScenario with audiotracks := [trackA3] } := by
  have h1 : addLangAudioTrack muxScenario ("any") =
      .ok { muxScenario with audiotracks := muxScenario.audiotracks ++ [trackA3] } :=
    any_admission_semantics.1 muxScenario rfl trackA3 (by decide)
  exact ⟨h1, any_admission_semantics.2.2 _ _ h1⟩

/-- C7 counterexample: admitting global track 0 twice appends it twice — the
resulting state carries `StreamOrder` `"0"` in two entries, refuting the
claimed at-most-once invariant and its enforcement at admission. -/
theorem duplicate_streamorder_admitted :
    (do
      let m1 ← addTrack muxScenario ("0")
      addTrack m1 ("0") : Except Err Muxer) =
      .ok { muxScenario with videotracks := [setFlags false trackV0, setFlags false trackV0] } ∧
    ¬ ((({ muxScenario with
            videotracks := [setFlags false trackV0, setFlags false trackV0] } : Muxer).videotracks
        ++ ({ muxScenario with
            videotracks := [setFlags false trackV0, setFlags false trackV0] } : Muxer).audiotracks
        ++ ({ muxScenario with
            videotracks := [setFlags false trackV0, setFlags false trackV0] } : Muxer).texttracks).map
          (fun t => t.streamOrder)).Nodup := ⟨by decide, by decide⟩

/-- C7 (amended): admission performs no duplicate check — a successful
`addTrack` appends exactly one resolved track to the sequence matching its
type and leaves everything else unchanged, whatever `streamOrder` values
are already present. -/
theorem admission_appends_unconditionally :
    ∀ (mux : Muxer) (id : String) (m' : Muxer), addTrack mux id = .ok m' →
      (∃ t, m'.videotracks = mux.videotracks ++ [t] ∧ m'.audiotracks = mux.audiotracks ∧
            m'.texttracks = mux.texttracks ∧ m'.infile = mux.infile ∧
            m'.outfile = mux.outfile) ∨
      (∃ t, m'.audiotracks = mux.audiotracks ++ [t] ∧ m'.videotracks = mux.videotracks ∧
            m'.texttracks = mux.texttracks ∧ m'.infile = mux.infile ∧
            m'.outfile = mux.outfile) ∨
      (∃ t, m'.texttracks = mux.texttracks ++ [t] ∧ m'.videotracks = mux.videotracks ∧
            m'.audiotracks = mux.audiotracks ∧ m'.infile = mux.infile ∧
            m'.outfile = mux.outfile) := by
  intro mux id m' h
  unfold addTrack at h
  cases hp : parseTrackId id with
  | error e => rw [hp, error_bind] at h; cases h
  | ok ttnf =>
    rw [hp, ok_bind] at h
    rcases ttnf with ⟨tt, n, f⟩
    replace h : (do
      let track ← getTrack mux.infile n tt
      let track := setFlags f track
      match track.typ with
      | some v =>
        if v = "Video" then .ok { mux with videotracks := mux.videotracks ++ [track] }
        else if v = "Audio" then .ok { mux with audiotracks := mux.audiotracks ++ [track] }
        else if v = "Text" then .ok { mux with texttracks := mux.texttracks ++ [track] }
        else .error .typeError
      | none => .error .keyError : Except Err Muxer) = .ok m' := h
    cases hg : getTrack mux.infile n tt with
    | error e => rw [hg, error_bind] at h; cases h
    | ok tr =>
      rw [hg, ok_bind] at h
      replace h : (match (setFlags f tr).typ with
        | some v =>
          if v = "Video" then
            Except.ok { mux with videotracks := mux.videotracks ++ [setFlags f tr] }
          else if v = "Audio" then
            Except.ok { mux with audiotracks := mux.audiotracks ++ [setFlags f tr] }
          else if v = "Text" then
            Except.ok { mux with texttracks := mux.texttracks ++ [setFlags f tr] }
          else Except.error Err.typeError
        | none => Except.error Err.keyError) = Except.ok m' := h
      cases hty : (setFlags f tr).typ with
      | none => rw [hty] at h; cases h
      | some v =>
        rw [hty] at h
        replace h : (if v = "Video" then
            Except.ok { mux with videotracks := mux.videotracks ++ [setFlags f tr] }
          else if v = "Audio" then
            Except.ok { mux with audiotracks := mux.audiotracks ++ [setFlags f tr] }
          else if v = "Text" then
            Except.ok { mux with texttracks := mux.texttracks ++ [setFlags f tr] }
          else Except.error Err.typeError) = Except.ok m' := h
        by_cases hv : v = "Video"
        · rw [if_pos hv] at h
          cases h
          exact Or.inl ⟨setFlags f tr, rfl, rfl, rfl, rfl, rfl⟩
        · rw [if_neg hv] at h
          by_cases ha : v = "Audio"
          · rw [if_pos ha] at h
            cases h
            exact Or.inr (Or.inl ⟨setFlags f tr, rfl, rfl, rfl, rfl, rfl⟩)
          · rw [if_neg ha] at h
            by_cases hs : v = "Text"
            · rw [if_pos hs] at h
              cases h
              exact Or.inr (Or.inr ⟨setFlags f tr, rfl, rfl, rfl, rfl, rfl⟩)
            · rw [if_neg hs] at h
              cases h

/-- Witness for the amended C7 at a concrete admission. -/
theorem admission_appends_unconditionally_witness :
    (∃ t, ({ muxScenario with videotracks := [setFlags true trackV0] } : Muxer).videotracks =
            muxScenario.videotracks ++ [t] ∧
          ({ muxScenario with videotracks := [setFlags true trackV0] } : Muxer).audiotracks =
            muxScenario.audiotracks ∧
          ({ muxScenario with videotracks := [setFlags true trackV0] } : Muxer).texttracks =
            muxScenario.texttracks ∧
          ({ muxScenario with videotracks := [setFlags true trackV0] } : Muxer).infile =
            muxScenario.infile ∧
          ({ muxScenario with videotracks := [setFlags true trackV0] } : Muxer).outfile =
            muxScenario.outfile) ∨
    (∃ t, ({ muxScenario with videotracks := [setFlags true trackV0] } : Muxer).audiotracks =
            muxScenario.audiotracks ++ [t] ∧
          ({ muxScenario with videotracks := [setFlags true trackV0] } : Muxer).videotracks =
            muxScenario.videotracks ∧
          ({ muxScenario with videotracks := [setFlags true trackV0] } : Muxer).texttracks =
            muxScenario.texttracks ∧
          ({ muxScenario with videotracks := [setFlags true trackV0] } : Muxer).infile =
            muxScenario.infile ∧
          ({ muxScenario with videotracks := [setFlags true trackV0] } : Muxer).outfile =
            muxScenario.outfile) ∨
    (∃ t, ({ muxScenario with videotracks := [setFlags true trackV0] } : Muxer).texttracks =
            muxScenario.texttracks ++ [t] ∧
          ({ muxScenario with videotracks := [setFlags true trackV0] } : Muxer).videotracks =
            muxScenario.videotracks ∧
          ({ muxScenario with videotracks := [setFlags true trackV0] } : Muxer).audiotracks =
            muxScenario.audiotracks ∧
          ({ muxScenario with videotracks := [setFlags true trackV0] } : Muxer).infile =
            muxScenario.infile ∧
          ({ muxScenario with videotracks := [setFlags true trackV0] } : Muxer).outfile =
            muxScenario.outfile) :=
  admission_appends_unconditionally muxScenario ("v:0!")
    { muxScenario with videotracks := [setFlags true trackV0] } (by decide)

/-- A video track with no `StreamOrder` key. -/
def trackNoSO : Track := { typ := some "Video" }

/-- A catalog whose first video track lacks `StreamOrder`. -/
def mfTypedView : MediaFile := { file := "f.mkv", tracks := [trackNoSO, trackV0] }

/-- C8 counterexample: the per-type ordinal view is built from the full
probe list, so a `StreamOrder`-less video track is visible to
`getTrack(0, Video)` — refuting the claim that such tracks are invisible
to the per-type view. -/
theorem typed_view_sees_streamorderless_track :
    getTrack mfTypedView 0 ("Video") = .ok trackNoSO ∧ trackNoSO.streamOrder = none :=
  ⟨by decide, rfl⟩

/-- A second video track for the spec's ordinal example. -/
def trackVB : Track := { typ := some "Video", streamOrder := some "2" }

/-- The spec's ordinal-example catalog `[Video#0, Audio#0, Video#1]`. -/
def mfOrdinal : MediaFile := { file := "f.mkv", tracks := [trackV0, trackA1, trackVB] }

/-- C8 (amended): only the global view filters on `StreamOrder` presence
(every globally resolved track bears the key); per-type resolution
enumerates all tracks of the type in probe order; and the two views are
independent index spaces, as on the spec's example catalog. -/
theorem ordinal_view_spaces :
    (∀ (m : MediaFile) (i : Int) (t : Track), getTrack m i ("") = .ok t →
      (t.streamOrder).isSome) ∧
    (getTrack mfOrdinal 1 ("Video") = .ok trackVB ∧ getTrack mfOrdinal 1 ("") = .ok trackA1) := by
  constructor
  · intro m i t h
    unfold getTrack at h
    rw [if_neg (by decide)] at h
    rw [if_neg (by simp), ok_bind] at h
    replace h : (match pyIndex (globalView m) i with
      | some u => Except.ok u
      | none => Except.error Err.trackNotFound) = Except.ok t := h
    cases hp : pyIndex (globalView m) i with
    | none => rw [hp] at h; cases h
    | some u =>
      rw [hp] at h
      simp only [Except.ok.injEq] at h
      subst h
      exact (List.mem_filter.mp (pyIndex_mem hp)).2
  · exact ⟨by decide, by decide⟩

/-- Witness for the amended C8: a globally resolved track indeed bears
`StreamOrder`. -/
theorem ordinal_view_spaces_witness :
    ((trackA1.streamOrder).isSome : Prop) :=
  ordinal_view_spaces.1 mfOrdinal 1 trackA1 (by decide)

/-- An integer remainder (after bang-stripping) parses as a global id. -/
theorem parseTrackId_int {id : String} {n : Int} (h : pyInt? (rstripBang id) = some n) :
    parseTrackId id = .ok ("", n, endsBang id) := by
  have hshape : parseTrackId id =
      (match pyInt? (rstripBang id) with
       | some k => Except.ok (("" : String), k, endsBang id)
       | none =>
         match pySplit (':') (rstripBang id) with
         | [t, nstr] =>
           match pyInt? nstr with
           | some k => Except.ok (mapTType t, k, endsBang id)
           | none => Except.error Err.valueError
         | _ => Except.error Err.valueError) := rfl
  rw [hshape, h]

/-- The global branch of `getTrack` indexes the `StreamOrder`-filtered view. -/
theorem getTrack_global (m : MediaFile) (i : Int) :
    getTrack m i ("") = (match pyIndex (globalView m) i with
      | some t => Except.ok t
      | none => Except.error Err.trackNotFound) := by
  unfold getTrack
  rw [if_neg (by decide), if_neg (by simp)]
  rfl

/-- C2: code bug — no default flag is ever set at synthesis: `addTrack`
stores `Default = "No"` (marked `TODO` in the source) and neither command
builder reassigns defaults, so after admitting video 0 and audio 1 the
keep-list command carries `--default-track-flag 0:0` and `1:0` and the
map-list command carries disposition `0` for every stream, where the claim
requires the first video and first audio track to be marked default. -/
theorem synthesis_never_sets_default_flag :
    (do
      let m1 ← addTrack muxScenario ("0")
      let m2 ← addTrack m1 ("1")
      getMkvmergeCmd m2 : Except Err (List String)) =
      .ok ["mkvmerge", "--track-order", "0:0,0:1", "-o", "out.mkv",
           "--video-tracks", "0", "--audio-tracks", "1", "--no-subtitles",
           "--default-track-flag", "0:0", "--forced-display-flag", "0:0",
           "--default-track-flag", "1:0", "--forced-display-flag", "1:0", "in.mkv"] ∧
    (do
      let m1 ← addTrack muxScenario ("0")
      let m2 ← addTrack m1 ("1")
      getFfmpegCmd m2 : Except Err (List String)) =
      .ok ["ffmpeg", "-analyzeduration", "200M", "-probesize", "1G", "-i", "in.mkv",
           "-c", "copy", "-map", "0:0", "-disposition:0", "0", "-map", "0:1",
           "-disposition:1", "0", "-start_at_zero", "-copyts", "-avoid_negative_ts",
           "disabled", "out.mkv"] := ⟨by decide, by decide⟩

/-- The claim's temporal predicate: every output-location check comes after
every selection step in the trace. -/
def outputCheckAfterSelection (tr : List Ev) : Prop :=
  ∀ i j : Nat, ∀ e : Ev, tr.get? i = some Ev.outputCheck → tr.get? j = some e →
    isSelection e → j < i

/-- C9 counterexample: with one manual track and one language, the trace has
the output check at position 0 and a selection step at position 1 — the
check runs before selection, refuting the claim. -/
theorem output_check_before_selection :
    ¬ outputCheckAfterSelection (mainTrace ["0"] ["en"]) := by
  intro h
  exact absurd (h 0 1 (Ev.addTrackEv ("0")) (by decide) (by decide) (by decide)) (by decide)

/-- C9 (amended): the output-location check is the first effect of every
run — it is performed during `Muxer` construction, before any selection
step (and never again later). -/
theorem output_check_runs_first :
    ∀ (tracks langs : List String),
      ∃ rest, mainTrace tracks langs = Ev.outputCheck :: rest ∧ Ev.outputCheck ∉ rest := by
  intro tracks langs
  refine ⟨tracks.map Ev.addTrackEv
    ++ (if langs.contains ("none") then [] else langs.map Ev.addLangEv)
    ++ [Ev.runMux], rfl, ?_⟩
  intro hmem
  rcases List.mem_append.mp hmem with hm | hm
  · rcases List.mem_append.mp hm with hm2 | hm2
    · rcases List.mem_map.mp hm2 with ⟨x, _, hx⟩
      cases hx
    · by_cases hn : langs.contains ("none")
      · rw [if_pos hn] at hm2
        simp at hm2
      · rw [if_neg hn] at hm2
        rcases List.mem_map.mp hm2 with ⟨x, _, hx⟩
        cases hx
  · rcases List.mem_singleton.mp hm with h
    cases h

/-- Witness for the amended C9 at a concrete argument vector. -/
theorem output_check_runs_first_witness :
    ∃ rest, mainTrace ["0"] ["en"] = Ev.outputCheck :: rest ∧ Ev.outputCheck ∉ rest :=
  output_check_runs_first ["0"] ["en"]

/-- C10: for a required 2-letter language whose `bestAudio` resolution
succeeds (no duplicate language admitted yet), admission re-resolves the
chosen track by reading its `StreamOrder` string as an integer position in
the global ordinal view: out-of-range positions raise `TrackNotFound`; an
in-range position admits whatever track sits there (flags overwritten); and
under a duplicate-free view that track is the chosen one exactly when the
`StreamOrder` value equals the track's zero-based position in the view. -/
theorem lang_admission_reresolution
    (mux : Muxer) (language : String) (best : Track) (so : String) (n : Int)
    (hlen : pyLen language = 2)
    (hscan : langScan mux.audiotracks language = .ok false)
    (hbest : getBestAudioTrack mux.infile language = .ok best)
    (hso : best.streamOrder = some so)
    (hn : pyInt? so = some n) (hnn : 0 ≤ n)
    (hnb : endsBang so = false) (hrs : rstripBang so = so) :
    ((globalView mux.infile).length ≤ n.toNat →
      addLangAudioTrack mux language = .error .trackNotFound) ∧
    (∀ r, (globalView mux.infile).get? n.toNat = some r → r.typ = some ("Audio") →
      addLangAudioTrack mux language =
        .ok { mux with audiotracks := mux.audiotracks ++ [setFlags false r] }) ∧
    ((globalView mux.infile).Nodup →
      ((globalView mux.infile).get? n.toNat = some best ↔
        (globalView mux.infile).indexOf best = n.toNat)) := by
  have hany : language ≠ "any" := by
    intro h
    rw [h] at hlen
    exact absurd hlen (by decide)
  have houter : addLangAudioTrack mux language =
      (match resolveLangTrack mux language with
       | .error .trackNotFound => .error .trackNotFound
       | r => r) := by
    unfold addLangAudioTrack langParse
    rw [if_neg hany, if_pos hlen, ok_bind]
    show ((do
      let dup ← langScan mux.audiotracks language
      if dup then Except.ok mux
      else
        match resolveLangTrack mux language with
        | .error .trackNotFound =>
          if false then Except.ok mux else Except.error Err.trackNotFound
        | r => r : Except Err Muxer)) = _
    rw [hscan, ok_bind]
    rfl
  have hn' : pyInt? (rstripBang so) = some n := by rw [hrs]; exact hn
  have hparse : parseTrackId so = .ok ("", n, false) := by
    rw [parseTrackId_int hn', hnb]
  have hres : resolveLangTrack mux language = addTrack mux so := by
    unfold resolveLangTrack
    rw [hbest, ok_bind, hso]
    rfl
  refine ⟨?_, ?_, ?_⟩
  · intro hout
    have hidx : pyIndex (globalView mux.infile) n = none := by
      rw [pyIndex_nonneg _ hnn]
      exact List.get?_eq_none.mpr hout
    have hgt : getTrack mux.infile n ("") = .error .trackNotFound := by
      rw [getTrack_global, hidx]
    have haddt : addTrack mux so = .error .trackNotFound := by
      unfold addTrack
      rw [hparse, ok_bind]
      show (do
        let track ← getTrack mux.infile n ("")
        let track := setFlags false track
        match track.typ with
        | some v =>
          if v = "Video" then .ok { mux with videotracks := mux.videotracks ++ [track] }
          else if v = "Audio" then .ok { mux with audiotracks := mux.audiotracks ++ [track] }
          else if v = "Text" then .ok { mux with texttracks := mux.texttracks ++ [track] }
          else .error .typeError
        | none => .error .keyError : Except Err Muxer) = .error .trackNotFound
      rw [hgt, error_bind]
    rw [houter, hres, haddt]
  · intro r hr hty
    have hidx : pyIndex (globalView mux.infile) n = some r := by
      rw [pyIndex_nonneg _ hnn]
      exact hr
    have hgt : getTrack mux.infile n ("") = .ok r := by
      rw [getTrack_global, hidx]
    have haddt : addTrack mux so =
        .ok { mux with audiotracks := mux.audiotracks ++ [setFlags false r] } := by
      unfold addTrack
      rw [hparse, ok_bind]
      show (do
        let track ← getTrack mux.infile n ("")
        let track := setFlags false track
        match track.typ with
        | some v =>
          if v = "Video" then .ok { mux with videotracks := mux.videotracks ++ [track] }
          else if v = "Audio" then .ok { mux with audiotracks := mux.audiotracks ++ [track] }
          else if v = "Text" then .ok { mux with texttracks := mux.texttracks ++ [track] }
          else .error .typeError
        | none => .error .keyError : Except Err Muxer) = _
      rw [hgt, ok_bind]
      have hsf : (setFlags false r).typ = some ("Audio") := hty
      show (match (setFlags false r).typ with
        | some v =>
          if v = "Video" then
            Except.ok { mux with videotracks := mux.videotracks ++ [setFlags false r] }
          else if v = "Audio" then
            Except.ok { mux with audiotracks := mux.audiotracks ++ [setFlags false r] }
          else if v = "Text" then
            Except.ok { mux with texttracks := mux.texttracks ++ [setFlags false r] }
          else Except.error Err.typeError
        | none => Except.error Err.keyError) = _
      rw [hsf]
      rfl
    rw [houter, hres, haddt]
  · intro hnd
    obtain ⟨cs, hcs, hin⟩ := getBestAudioTrack_mem hbest
    have hmem : best ∈ mux.infile.tracks := audioCandidates_subset hcs hin
    have hgv : best ∈ globalView mux.infile := by
      refine List.mem_filter.mpr ⟨hmem, ?_⟩
      rw [hso]
      rfl
    exact nodup_get?_iff _ hnd best hgv n.toNat

/-- Witness for C10 on a one-track catalog: `"en"` admits the best track,
whose `StreamOrder` `"0"` equals its position in the global view. -/
theorem lang_admission_reresolution_witness :
    addLangAudioTrack muxForcedProbe ("en") =
      .ok { muxForcedProbe with audiotracks := [setFlags false trackForcedProbe] } ∧
    ((globalView mfForcedProbe).get? (Int.toNat 0) = some trackForcedProbe ↔
      (globalView mfForcedProbe).indexOf trackForcedProbe = Int.toNat 0) := by
  have h := lang_admission_reresolution muxForcedProbe ("en") trackForcedProbe ("0") 0
    (by decide) (by decide) (by decide) (by decide) (by decide) (by decide)
    (by decide) (by decide)
  exact ⟨h.2.1 trackForcedProbe (by decide) (by decide), h.2.2 (by decide)⟩

theorem planEntry_inv {t : Track} {e : StreamRef} (h : planEntry t = .ok e) :
    ∃ so d f, t.streamOrder = some so ∧ t.default = some d ∧ t.forced = some f ∧
      e = (so, decide (d = "Yes"), decide (f = "Yes")) := by
  unfold planEntry soOf at h
  cases hso : t.streamOrder with
  | none => rw [hso] at h; simp [getKey] at h
  | some so =>
    rw [hso] at h
    simp only [getKey, ok_bind] at h
    cases hd : t.default with
    | none => rw [hd] at h; simp [getKey] at h
    | some d =>
      rw [hd] at h
      simp only [getKey, ok_bind] at h
      cases hf : t.forced with
      | none => rw [hf] at h; simp [getKey] at h
      | some f =>
        rw [hf] at h
        simp only [getKey, ok_bind, Except.ok.injEq] at h
        exact ⟨so, d, f, rfl, rfl, rfl, h.symm⟩

theorem soOf_of_plan {t : Track} {e : StreamRef} (h : planEntry t = .ok e) :
    soOf t = .ok e.1 := by
  obtain ⟨so, d, f, hso, hd, hf, rfl⟩ := planEntry_inv h
  unfold soOf
  rw [hso]
  rfl

theorem trackorderArg_of_plan {t : Track} {e : StreamRef} (h : planEntry t = .ok e) :
    trackorderArg t = .ok ("0:" ++ e.1) := by
  unfold trackorderArg
  rw [soOf_of_plan h]
  rfl

theorem mkvFlagArg_of_plan {t : Track} {e : StreamRef} (h : planEntry t = .ok e) :
    mkvFlagArg t = .ok (mkvFlagRender e) := by
  obtain ⟨so, d, f, hso, hd, hf, rfl⟩ := planEntry_inv h
  unfold mkvFlagArg soOf
  rw [hso]
  simp only [getKey, ok_bind]
  rw [hd]
  simp only [getKey, ok_bind]
  rw [hf]
  simp only [getKey, ok_bind]
  unfold mkvFlagRender
  by_cases hdy : d = "Yes" <;> by_cases hfy : f = "Yes" <;> simp [hdy, hfy]

theorem ffmpegTrackArgs_of_plan :
    ∀ {l : List Track} {es : List StreamRef}, eachM planEntry l = .ok es →
      ∀ i : Nat, ffmpegTrackArgs i l = .ok (ffmpegPlanSection i es) := by
  intro l
  induction l with
  | nil => intro es h i; cases h; rfl
  | cons t ts ih =>
    intro es h i
    rcases eachM_cons_ok.mp h with ⟨e, rest, he, hrest, rfl⟩
    obtain ⟨so, d, f, hso, hd, hf, rfl⟩ := planEntry_inv he
    unfold ffmpegTrackArgs soOf
    rw [hso]
    simp only [getKey, ok_bind]
    rw [hd]
    simp only [getKey, ok_bind]
    rw [hf]
    simp only [getKey, ok_bind]
    rw [ih hrest (i + 1), ok_bind]
    rw [show ffmpegPlanSection i ((so, decide (d = "Yes"), decide (f = "Yes")) :: rest) =
      ["-map", "0:" ++ so, "-disposition:" ++ toString i,
       ffmpegDispoRender (so, decide (d = "Yes"), decide (f = "Yes"))] ++
      ffmpegPlanSection (i + 1) rest from rfl]
    show Except.ok (["-map", "0:" ++ so, "-disposition:" ++ toString i,
      if ((if d = "Yes" then [("default" : String)] else []) ++
          (if f = "Yes" then ["forced"] else [])) ≠ [] then
        pyJoin ("+") ((if d = "Yes" then [("default" : String)] else []) ++
          (if f = "Yes" then ["forced"] else []))
      else "0"] ++ ffmpegPlanSection (i + 1) rest) = _
    by_cases hdy : d = "Yes" <;> by_cases hfy : f = "Yes" <;>
      simp [ffmpegDispoRender, hdy, hfy]

/-- C1: both backend commands are pure formattings of one shared ordered
stream plan — the fallback-resolved video sequence, then audio, then
subtitles, each entry carrying the stream identifier and its decoded
default/forced markings — so the keep-list and map-list commands reference
the same stream identifiers, in the same relative order, with identical
default/forced markings. -/
theorem backends_share_stream_plan :
    ∀ (mux : Muxer) (pv pa pt : List StreamRef),
      streamPlan mux = .ok (pv, pa, pt) →
      getMkvmergeCmd mux = .ok (mkvCmdOfPlan pv pa pt mux.outfile mux.infile.file) ∧
      getFfmpegCmd mux = .ok (ffmpegCmdOfPlan (pv ++ pa ++ pt) mux.outfile mux.infile.file) := by
  intro mux pv pa pt h
  unfold streamPlan at h
  cases hv : resolvedVideotracks mux with
  | error e => rw [hv, error_bind] at h; cases h
  | ok v =>
    rw [hv, ok_bind] at h
    cases hpv : eachM planEntry v with
    | error e => rw [hpv, error_bind] at h; cases h
    | ok pv' =>
      rw [hpv, ok_bind] at h
      cases hpa : eachM planEntry mux.audiotracks with
      | error e => rw [hpa, error_bind] at h; cases h
      | ok pa' =>
        rw [hpa, ok_bind] at h
        cases hpt : eachM planEntry mux.texttracks with
        | error e => rw [hpt, error_bind] at h; cases h
        | ok pt' =>
          rw [hpt, ok_bind] at h
          simp only [Except.ok.injEq, Prod.mk.injEq] at h
          obtain ⟨h1, h2, h3⟩ := h
          rw [← h1, ← h2, ← h3]
          have hsoV : eachM soOf v = .ok (pv'.map (fun e => e.1)) :=
            eachM_of_eachM (fun t e he => soOf_of_plan he) hpv
          have hsoA : eachM soOf mux.audiotracks = .ok (pa'.map (fun e => e.1)) :=
            eachM_of_eachM (fun t e he => soOf_of_plan he) hpa
          have hsoT : eachM soOf mux.texttracks = .ok (pt'.map (fun e => e.1)) :=
            eachM_of_eachM (fun t e he => soOf_of_plan he) hpt
          have hall : eachM planEntry (v ++ mux.audiotracks ++ mux.texttracks) =
              .ok (pv' ++ pa' ++ pt') := eachM_append (eachM_append hpv hpa) hpt
          have hto : eachM trackorderArg (v ++ mux.audiotracks ++ mux.texttracks) =
              .ok ((pv' ++ pa' ++ pt').map (fun e => "0:" ++ e.1)) :=
            eachM_of_eachM (fun t e he => trackorderArg_of_plan he) hall
          have hfl : eachM mkvFlagArg (v ++ mux.audiotracks ++ mux.texttracks) =
              .ok ((pv' ++ pa' ++ pt').map mkvFlagRender) :=
            eachM_of_eachM (fun t e he => mkvFlagArg_of_plan he) hall
          have hff : ffmpegTrackArgs 0 (v ++ mux.audiotracks ++ mux.texttracks) =
              .ok (ffmpegPlanSection 0 (pv' ++ pa' ++ pt')) :=
            ffmpegTrackArgs_of_plan hall 0
          have hiffv : (v ≠ []) ↔ (pv' ≠ []) := by
            have := eachM_length hpv
            constructor <;> intro hne hcon <;> apply hne
            · rw [hcon] at this
              exact List.length_eq_zero.mp (this.symm ▸ rfl)
            · rw [hcon] at this
              exact List.length_eq_zero.mp this
          have hiffa : (mux.audiotracks ≠ []) ↔ (pa' ≠ []) := by
            have := eachM_length hpa
            constructor <;> intro hne hcon <;> apply hne
            · rw [hcon] at this
              exact List.length_eq_zero.mp (this.symm ▸ rfl)
            · rw [hcon] at this
              exact List.length_eq_zero.mp this
          have hifft : (mux.texttracks ≠ []) ↔ (pt' ≠ []) := by
            have := eachM_length hpt
            constructor <;> intro hne hcon <;> apply hne
            · rw [hcon] at this
              exact List.length_eq_zero.mp (this.symm ▸ rfl)
            · rw [hcon] at this
              exact List.length_eq_zero.mp this
          constructor
          · unfold getMkvmergeCmd
            rw [hv, ok_bind, hsoV, ok_bind, hsoA, ok_bind, hsoT, ok_bind, hto, ok_bind,
                hfl, ok_bind]
            rw [if_congr hiffv rfl rfl, if_congr hiffa rfl rfl, if_congr hifft rfl rfl]
            rfl
          · unfold getFfmpegCmd
            rw [hv, ok_bind]
            show ((do
              let _ ← eachM trackorderArg (v ++ mux.audiotracks ++ mux.texttracks)
              let sections ← ffmpegTrackArgs 0 (v ++ mux.audiotracks ++ mux.texttracks)
              Except.ok (["ffmpeg", "-analyzeduration", "200M", "-probesize", "1G", "-i",
                mux.infile.file, "-c", "copy"] ++ sections ++
                ["-start_at_zero", "-copyts", "-avoid_negative_ts", "disabled", mux.outfile])
              : Except Err (List String))) = _
            rw [hto, ok_bind, hff, ok_bind]
            rfl

/-- A selection state with one admitted video track and one admitted forced
audio track over the §8 scenario catalog. -/
def muxPlanned : Muxer :=
  { infile := mfScenario, outfile := "out.mkv",
    videotracks := [setFlags false trackV0], audiotracks := [setFlags true trackA1] }

/-- Witness for C1 on a concrete selection state and its concrete plan. -/
theorem backends_share_stream_plan_witness :
    streamPlan muxPlanned =
      .ok ([(("0" : String), false, false)], [(("1" : String), false, true)],
           ([] : List StreamRef)) ∧
    getMkvmergeCmd muxPlanned =
      .ok (mkvCmdOfPlan [(("0" : String), false, false)] [(("1" : String), false, true)] []
        muxPlanned.outfile muxPlanned.infile.file) ∧
    getFfmpegCmd muxPlanned =
      .ok (ffmpegCmdOfPlan ([(("0" : String), false, false)] ++ [(("1" : String), false, true)]
        ++ []) muxPlanned.outfile muxPlanned.infile.file) := by
  refine ⟨rfl, ?_, ?_⟩
  · exact (backends_share_stream_plan muxPlanned [(("0" : String), false, false)]
      [(("1" : String), false, true)] [] rfl).1
  · exact (backends_share_stream_plan muxPlanned [(("0" : String), false, false)]
      [(("1" : String), false, true)] [] rfl).2

end Movmux
